import Mathlib

/-!
# libcppa: node ids, the middleman's event handler, the mailman and local actors

A shallow embedding of the parts of libcppa that the specification's claims
are about, followed by the theorems that settle them.

* `src/node_id.cpp`: `node_id::compare`, `to_string`, `host_id_from_string`.
* `src/middleman_event_handler.cpp`: `alteration`, `next_bitmask`, `update`.
* `src/mailman.cpp`: `mailman_loop`.
* `cppa/local_actor.hpp`: request ids, pending responses, sync handlers.
* `cppa/util/limited_vector.hpp`: the vector with a fixed maximum size.
* `cppa/intrusive_ptr.hpp`: `release` and the destructor.
* `cppa/detail/actor_registry.hpp`: `get`.

Machine integers are natural numbers (or integers where the C++ type is
signed); a wrap-around is written `% 2 ^ w` where the code can overflow.
-/

namespace cppa

/-! ## node_id (src/node_id.cpp) -/

/-- Number of bytes of a host id, `node_id::host_id_size`. -/
def host_id_size : Nat := 20

/-- The host id of a node, `node_id::host_id_type`: an array of
`host_id_size` bytes (`std::uint8_t`). -/
structure host_id_type where
  data : List Nat
  size_eq : data.length = host_id_size
  byte_lt : ∀ b ∈ data, b < 256

/-- A node id: the process id (`std::uint32_t`) and the host id. -/
structure node_id where
  m_process_id : Nat
  process_id_lt : m_process_id < 2 ^ 32
  m_host_id : host_id_type

/-- Accessor `node_id::process_id()`. -/
def node_id.process_id (self : node_id) : Nat := self.m_process_id

/-- Accessor `node_id::host_id()`. -/
def node_id.host_id (self : node_id) : host_id_type := self.m_host_id

/-- The C library's `strncmp(s1, s2, n)` on byte strings: at most `n`
characters are compared as `unsigned char`, and the comparison ends at the
first difference or behind a terminating NUL character. The sign of the result
is what the C standard fixes; as in the usual implementations the value is the
difference of the two characters that differ. Both arrays hold at least `n`
bytes at the only call site, the last case is never reached from there. -/
def strncmp : List Nat → List Nat → Nat → Int
  | _, _, 0 => 0
  | c1 :: s1, c2 :: s2, n + 1 =>
    if c1 ≠ c2 then (c1 : Int) - (c2 : Int)
    else if c1 = 0 then 0
    else strncmp s1 s2 n
  | _, _, _ + 1 => 0

/-- The three-way comparison `node_id::compare`. -/
def node_id.compare (self other : node_id) : Int :=
  let tmp := strncmp self.host_id.data other.host_id.data host_id_size
  if tmp = 0 then
    if self.m_process_id < other.process_id then -1
    else if self.m_process_id = other.process_id then 0
    else 1
  else tmp

/-- What `operator<<` of a `std::ostream` writes for an unsigned integer `v`
in the given base (10 by default, 16 after `std::hex`) with the field width
`width` and the fill character `fill`: the digits of `v`, most significant
first and in lower case, padded on the left up to the width. -/
def ostream_put (base width : Nat) (fill : Char) (v : Nat) : List Char :=
  let digits := Nat.toDigits base v
  List.replicate (width - digits.length) fill ++ digits

/-- The loop of `to_string(const node_id::host_id_type&)`: for every byte,
`oss.width(2)` followed by the output of the byte as an unsigned integer, on a
stream in `std::hex` mode whose fill character is `'0'`. -/
def to_string_host_id_loop : List Nat → List Char
  | [] => []
  | b :: rest => ostream_put 16 2 '0' b ++ to_string_host_id_loop rest

/-- Textual form of a host id, `to_string(const node_id::host_id_type&)`. -/
def to_string_host_id (h : host_id_type) : String :=
  String.mk (to_string_host_id_loop h.data)

/-- Textual form of a node id, `to_string(const node_id&)`:
`oss << what.process_id() << "@" << to_string(what.host_id())` on a fresh
stream (decimal, no field width). -/
def to_string (what : node_id) : String :=
  String.mk (ostream_put 10 0 ' ' what.process_id) ++ "@" ++ to_string_host_id what.host_id

/-- The hexadecimal digit for a value below 16, in lower case. -/
def hex_digit (v : Nat) : Char :=
  if v < 10 then Char.ofNat (48 + v) else Char.ofNat (87 + v)

/-- The value of a string of decimal digits, most significant digit first. -/
def decimal_value (cs : List Char) : Nat :=
  cs.foldl (fun acc c => 10 * acc + (c.toNat - 48)) 0

/-- A node id with the given process id and host id bytes, for examples. -/
def node_id_example_a : node_id :=
  { m_process_id := 1
    process_id_lt := by norm_num
    m_host_id :=
      { data := [0, 1, 0, 0, 0, 0, 0, 0, 0, 0, 0, 0, 0, 0, 0, 0, 0, 0, 0, 0]
        size_eq := by rfl
        byte_lt := by decide } }

/-- A node id that differs from `node_id_example_a` in the second byte of the
host id only. -/
def node_id_example_b : node_id :=
  { m_process_id := 1
    process_id_lt := by norm_num
    m_host_id :=
      { data := [0, 2, 0, 0, 0, 0, 0, 0, 0, 0, 0, 0, 0, 0, 0, 0, 0, 0, 0, 0]
        size_eq := by rfl
        byte_lt := by decide } }

/-! ## middleman_event_handler (src/middleman_event_handler.cpp) -/

/-- A socket descriptor, `native_socket_type` (an `int`). -/
abbrev native_socket_type := Int

/-- Modelled from the spec: the header that declares `event_bitmask` and the
namespace `event` is not among the sources. The spec gives a readiness mask
the values `read`, `write`, `both` or `none`, and the code tests a mask with
`mask & event::read`: a mask is the bit pattern of a 32-bit integer with one
bit for reading and one for writing. -/
abbrev event_bitmask := Nat

namespace event

/-- Modelled from the spec: the empty readiness mask. -/
def none : event_bitmask := 0

/-- Modelled from the spec: the readiness bit for reading. -/
def read : event_bitmask := 1

/-- Modelled from the spec: the readiness bit for writing. -/
def write : event_bitmask := 2

/-- Modelled from the spec: the bits for reading and writing together. -/
def both : event_bitmask := 3

end event

/-- The operator `~` on the bit pattern of a 32-bit integer. -/
def bit_not (x : Nat) : Nat := (2 ^ 32 - 1) ^^^ x

/-- The kind of a change of the meta-set, `fd_meta_event`. -/
inductive fd_meta_event where
  | add
  | erase
  | mod
  deriving DecidableEq, Repr

/-- An object that a `continuable*` points to: `id` stands for the address of
the object, the handles are what `read_handle()` and `write_handle()` return. -/
structure continuable where
  id : Nat
  read_handle : native_socket_type
  write_handle : native_socket_type
  deriving DecidableEq, Repr

/-- An entry of the meta-set, `fd_meta_info`. -/
structure fd_meta_info where
  fd : native_socket_type
  ptr : continuable
  mask : event_bitmask
  deriving DecidableEq, Repr

/-- One call of the virtual `handle_event(me, fd, old_bitmask, new_bitmask, ptr)`. -/
structure handled_event where
  me : fd_meta_event
  fd : native_socket_type
  old_bitmask : event_bitmask
  new_bitmask : event_bitmask
  ptr : continuable
  deriving DecidableEq, Repr

/-- The data members of `middleman_event_handler`, with the calls it has made
so far: `events` are the calls of `handle_event`, `disposed` the continuables
on which `dispose()` was invoked, both in the order of the calls. -/
structure middleman_event_handler where
  m_meta : List fd_meta_info
  m_alterations : List (fd_meta_info × fd_meta_event)
  m_dispose_list : List continuable
  events : List handled_event
  disposed : List continuable
  deriving DecidableEq, Repr

/-- The recording of an alteration, `middleman_event_handler::alteration`,
as the new value of `m_alterations`. The nested call
`alteration(ptr, event::write, etype)` of the case `event::both` is written
out: it takes the case `event::write`. In the default case the code reports
the invalid bitmask with `CPPA_CRITICAL` and returns before the
`emplace_back`. -/
def alteration (m_alterations : List (fd_meta_info × fd_meta_event))
    (ptr : continuable) (e : event_bitmask) (etype : fd_meta_event) :
    List (fd_meta_info × fd_meta_event) :=
  if e = event.read then
    m_alterations ++ [(⟨ptr.read_handle, ptr, e⟩, etype)]
  else if e = event.write then
    m_alterations ++ [(⟨ptr.write_handle, ptr, e⟩, etype)]
  else if e = event.both then
    let fd := ptr.read_handle
    let wrfd := ptr.write_handle
    if fd ≠ wrfd then
      (m_alterations ++ [(⟨ptr.write_handle, ptr, event.write⟩, etype)])
        ++ [(⟨fd, ptr, event.read⟩, etype)]
    else
      m_alterations ++ [(⟨fd, ptr, e⟩, etype)]
  else
    m_alterations

/-- The member `add_later(ptr, e)`. -/
def add_later (self : middleman_event_handler) (ptr : continuable) (e : event_bitmask) :
    middleman_event_handler :=
  { self with m_alterations := alteration self.m_alterations ptr e fd_meta_event.add }

/-- The member `erase_later(ptr, e)`. -/
def erase_later (self : middleman_event_handler) (ptr : continuable) (e : event_bitmask) :
    middleman_event_handler :=
  { self with m_alterations := alteration self.m_alterations ptr e fd_meta_event.erase }

/-- The mask after an alteration, `middleman_event_handler::next_bitmask`.
The assertion `CPPA_REQUIRE(op == add || op == erase)` states a precondition;
the value is that of the conditional expression. -/
def next_bitmask (old arg : event_bitmask) (op : fd_meta_event) : event_bitmask :=
  if op = fd_meta_event.add then old ||| arg else old &&& bit_not arg

/-- The comparison `mless` of `update()`. -/
def mless (lhs : fd_meta_info) (rhs : native_socket_type) : Bool :=
  decide (lhs.fd < rhs)

/-- The result of `std::lower_bound(first, last, fd, mless)` on a range that
is sorted by `fd`: the iterator to the first entry that is not `mless` than
`fd`, given as the pair of the entries before the iterator and the entries
from the iterator on (empty when the iterator is `last`). -/
def lower_bound (m_meta : List fd_meta_info) (fd : native_socket_type) :
    List fd_meta_info × List fd_meta_info :=
  (m_meta.takeWhile (fun lhs => mless lhs fd), m_meta.dropWhile (fun lhs => mless lhs fd))

/-- The body of the first loop of `update()` for one element of
`m_alterations`. With `(before, rest)` the position `iter`:
`m_meta.insert(iter, elem)` is `before ++ elem :: rest`, `m_meta.erase(iter)`
drops the head of `rest`, and `iter->mask = mask` replaces the mask of that
head. The calls of the virtual `handle_event` are appended to `events`. The
assertion `CPPA_REQUIRE(iter->ptr == elem.ptr)` does not take part in the
result. -/
def update_step (self : middleman_event_handler)
    (elem_pair : fd_meta_info × fd_meta_event) : middleman_event_handler :=
  let elem := elem_pair.1
  let (before, rest) := lower_bound self.m_meta elem.fd
  let old := match rest with
    | [] => event.none
    | iter :: _ => iter.mask
  let mask := next_bitmask old elem.mask elem_pair.2
  let ptr := elem.ptr
  match rest with
  | [] =>
    if mask ≠ event.none then
      { self with
        m_meta := before ++ [elem]
        events := self.events ++ [⟨fd_meta_event.add, elem.fd, event.none, mask, ptr⟩] }
    else self
  | iter :: tail =>
    if iter.fd ≠ elem.fd then
      if mask ≠ event.none then
        { self with
          m_meta := before ++ elem :: iter :: tail
          events := self.events ++ [⟨fd_meta_event.add, elem.fd, event.none, mask, ptr⟩] }
      else self
    else
      if mask = event.none then
        { self with
          m_dispose_list := self.m_dispose_list ++ [ptr]
          m_meta := before ++ tail
          events := self.events ++ [⟨fd_meta_event.erase, elem.fd, old, mask, ptr⟩] }
      else
        { self with
          m_meta := before ++ { iter with mask := mask } :: tail
          events := self.events ++ [⟨fd_meta_event.mod, elem.fd, old, mask, ptr⟩] }

/-- The first loop of `update()` over all of `m_alterations`, before
`m_alterations.clear()`. -/
def update_fold (self : middleman_event_handler) : middleman_event_handler :=
  self.m_alterations.foldl update_step self

/-- The lambda `not_in_meta` of `update()`. -/
def not_in_meta (m_meta : List fd_meta_info) (fd : native_socket_type) : Bool :=
  match (lower_bound m_meta fd).2 with
  | [] => true
  | iter :: _ => decide (iter.fd ≠ fd)

/-- The condition under which the second loop of `update()` disposes `elem`. -/
def dispose_condition (m_meta : List fd_meta_info) (elem : continuable) : Bool :=
  let rd := elem.read_handle
  let wr := elem.write_handle
  (decide (rd = wr) && not_in_meta m_meta rd)
    || (decide (rd ≠ wr) && not_in_meta m_meta rd && not_in_meta m_meta wr)

/-- The second loop of `update()`: the continuables of `m_dispose_list` on
which `dispose()` is invoked, in the order of the calls. -/
def update_disposes (self : middleman_event_handler) : List continuable :=
  let folded := update_fold self
  folded.m_dispose_list.filter (fun elem => dispose_condition folded.m_meta elem)

/-- The member `middleman_event_handler::update`. -/
def update (self : middleman_event_handler) : middleman_event_handler :=
  let folded := update_fold self
  { folded with
    m_alterations := []
    disposed := folded.disposed ++ update_disposes self
    m_dispose_list := [] }

/-- The meta-set is sorted by strictly increasing descriptor. -/
def meta_sorted (m_meta : List fd_meta_info) : Prop :=
  List.Pairwise (fun a b => a.fd < b.fd) m_meta

/-- The mask that the meta-set stores for a descriptor, `event::none` when it
has no entry for it. -/
def stored_mask (m_meta : List fd_meta_info) (fd : native_socket_type) : event_bitmask :=
  match m_meta.find? (fun e => decide (e.fd = fd)) with
  | some e => e.mask
  | Option.none => event.none

/-- A handler with the given meta-set and pending alterations that has
scheduled nothing for disposal and made no call yet. -/
def handler_with (m_meta : List fd_meta_info)
    (m_alterations : List (fd_meta_info × fd_meta_event)) : middleman_event_handler :=
  { m_meta := m_meta, m_alterations := m_alterations, m_dispose_list := [],
    events := [], disposed := [] }

/-- A continuable that reads and writes on descriptor 5, for examples. -/
def continuable_p : continuable := ⟨1, 5, 5⟩

/-- A continuable that reads and writes on descriptor 3, for examples. -/
def continuable_q : continuable := ⟨2, 3, 3⟩

/-- A handler whose meta-set watches descriptor 5 for reading, after
`erase_later(q, event::write)` for a continuable `q` on descriptor 3, which
has no entry in the meta-set. -/
def handler_erase_absent : middleman_event_handler :=
  erase_later (handler_with [⟨5, continuable_p, event.read⟩] []) continuable_q event.write

/-- A handler whose meta-set watches descriptor 5 for reading, after
`erase_later(p, event::read)` followed by `add_later(p, event::write)`. -/
def handler_reintroduce : middleman_event_handler :=
  add_later (erase_later (handler_with [⟨5, continuable_p, event.read⟩] [])
    continuable_p event.read) continuable_p event.write

/-! ## mailman (src/mailman.cpp) -/

/-- A socket descriptor, `native_socket_t`. -/
abbrev native_socket_t := Int

/-- A job of the mailman's queue, `mailman_job`: a send job with its target
peer and message, an add-peer job with its socket and peer, or the kill job.
The types of the peers (`process_information`) and of the messages are
declared outside the sources and are parameters. -/
inductive mailman_job (process_information message : Type) where
  | send_job (target_peer : process_information) (original_message : message)
  | add_peer (sockfd : native_socket_t) (pinfo : process_information)
  | kill

/-- The local variables of `mailman_loop` and what it has done to the outside:
`bs` is the buffer of the `binary_serializer`, `peers` the map of the
connected peers (one entry per key, the order is never observed), `written`
the bytes that `::send` has put on the sockets, in order and each with its
socket, and `closed` the sockets passed to `post_office_close_socket`. -/
structure mailman_state (process_information : Type) where
  bs : List Nat
  peers : List (process_information × native_socket_t)
  written : List (native_socket_t × Nat)
  closed : List native_socket_t

/-- The state in which `mailman_loop` enters its loop. -/
def mailman_init (process_information : Type) : mailman_state process_information :=
  { bs := [], peers := [], written := [], closed := [] }

/-- The lookup `peers.find(key)`. -/
def peers_find {process_information : Type} [DecidableEq process_information]
    (peers : List (process_information × native_socket_t)) (key : process_information) :
    Option native_socket_t :=
  match peers.find? (fun p => decide (p.1 = key)) with
  | some p => some p.2
  | none => none

/-- The removal `peers.erase(peer_element)` of the entry found for `key`. -/
def peers_erase {process_information : Type} [DecidableEq process_information]
    (peers : List (process_information × native_socket_t)) (key : process_information) :
    List (process_information × native_socket_t) :=
  peers.filter (fun p => !decide (p.1 = key))

/-- The four bytes at the address of a `std::uint32_t` of value `v`, in the
order of the addresses: the least significant byte first on a little-endian
host, the most significant byte first on a big-endian host. -/
def uint32_bytes (host_little_endian : Bool) (v : Nat) : List Nat :=
  if host_little_endian then
    [v % 256, v / 2 ^ 8 % 256, v / 2 ^ 16 % 256, v / 2 ^ 24 % 256]
  else
    [v / 2 ^ 24 % 256, v / 2 ^ 16 % 256, v / 2 ^ 8 % 256, v % 256]

/-- The bytes that a call `::send(peer, buf, len, 0)` with the result `sent`
puts on the socket: the first `sent` bytes of the buffer, none when the call
fails. -/
def socket_send (peer : native_socket_t) (buf : List Nat) (sent : Int) :
    List (native_socket_t × Nat) :=
  if sent > 0 then (buf.take sent.toNat).map (fun b => (peer, b)) else []

/-- The branch of `mailman_loop` for a send job. `serialize` is what
`bs << out_msg` appends to the buffer (`none` when it throws), `sent1` and
`sent2` are the results of the first and of the second `::send` (the second is
not called when the first fails). The comparison `sent != size32` is between a
`ssize_t` and a `std::uint32_t`, made on 64-bit integers. -/
def mailman_send {process_information message : Type} [DecidableEq process_information]
    (host_little_endian : Bool) (serialize : message → Option (List Nat))
    (st : mailman_state process_information)
    (target_peer : process_information) (out_msg : message) (sent1 sent2 : Int) :
    mailman_state process_information :=
  match peers_find st.peers target_peer with
  | some peer =>
    match serialize out_msg with
    | some bytes =>
      let bs := st.bs ++ bytes
      let size32 := bs.length % 2 ^ 32
      let written1 := socket_send peer (uint32_bytes host_little_endian size32) sent1
      let written2 := if sent1 > 0 then socket_send peer bs sent2 else []
      let sent := if sent1 > 0 then sent2 else sent1
      let disconnect_peer := decide (sent ≤ 0) || decide (sent ≠ (size32 : Int))
      { bs := []
        peers := if disconnect_peer then peers_erase st.peers target_peer else st.peers
        written := st.written ++ written1 ++ written2
        closed := if disconnect_peer then st.closed ++ [peer] else st.closed }
    | none =>
      { bs := []
        peers := peers_erase st.peers target_peer
        written := st.written
        closed := st.closed ++ [peer] }
  | none => st

/-- The branch of `mailman_loop` for an add-peer job. -/
def mailman_add {process_information : Type} [DecidableEq process_information]
    (st : mailman_state process_information)
    (sockfd : native_socket_t) (pinfo : process_information) :
    mailman_state process_information :=
  match peers_find st.peers pinfo with
  | none => { st with peers := st.peers ++ [(pinfo, sockfd)] }
  | some _ => st

/-- The loop of `mailman_loop` over the jobs that `mqueue.pop()` returns, each
with the results of the two `::send` calls it may make. The kill job ends the
loop; when the jobs so far are used up the loop waits in `pop()`. -/
def mailman_loop {process_information message : Type} [DecidableEq process_information]
    (host_little_endian : Bool) (serialize : message → Option (List Nat)) :
    mailman_state process_information →
      List (mailman_job process_information message × Int × Int) →
      mailman_state process_information
  | st, [] => st
  | st, (mailman_job.send_job target_peer out_msg, sent1, sent2) :: jobs =>
    mailman_loop host_little_endian serialize
      (mailman_send host_little_endian serialize st target_peer out_msg sent1 sent2) jobs
  | st, (mailman_job.add_peer sockfd pinfo, _, _) :: jobs =>
    mailman_loop host_little_endian serialize (mailman_add st sockfd pinfo) jobs
  | st, (mailman_job.kill, _, _) :: _ => st

/-- Modelled from the spec: the class `message_id` is declared in a header
that is not among the sources. The spec makes a message id a 64-bit value
whose low 62 bits carry an integer and whose two high bits are flags; the id
of an asynchronous message is 0. Two ids are equal when their values are. -/
structure message_id where
  m_value : Nat
  deriving DecidableEq, Repr

namespace message_id

/-- Modelled from the spec: the flag bit that marks a response. -/
def response_flag_mask : Nat := 2 ^ 63

/-- Modelled from the spec: the bits of the integer that the id carries. -/
def request_id_mask : Nat := 2 ^ 62 - 1

/-- Modelled from the spec: the default-constructed id `message_id()`, 0. -/
def invalid : message_id := ⟨0⟩

/-- Modelled from the spec: the pre-increment `++id` of the 64-bit value. -/
def incr (self : message_id) : message_id := ⟨(self.m_value + 1) % 2 ^ 64⟩

/-- Modelled from the spec: `is_response()`, the response flag is set. -/
def is_response (self : message_id) : Bool :=
  decide (self.m_value &&& response_flag_mask ≠ 0)

/-- Modelled from the spec: `valid()`, the id carries an integer other
than 0. -/
def valid (self : message_id) : Bool :=
  decide (self.m_value &&& request_id_mask ≠ 0)

/-- Modelled from the spec: `is_request()`, a valid id that is no response. -/
def is_request (self : message_id) : Bool :=
  self.valid && !self.is_response

/-- Modelled from the spec: `response_id()`, the id with the response flag
set. -/
def response_id (self : message_id) : message_id :=
  ⟨self.m_value ||| response_flag_mask⟩

end message_id

/-- A call that a member function of `local_actor` makes: the invocation of a
handler (a `std::function<void()>`, named by a number) or `quit(reason)`. -/
inductive actor_call where
  | invoke (handler : Nat)
  | quit (reason : Nat)
  deriving DecidableEq, Repr

/-- The constants of the namespace `exit_reason` that `local_actor.hpp` uses.
Their header is not among the sources and the spec gives them no values: they
are parameters. -/
structure exit_reason where
  unhandled_sync_failure : Nat
  unhandled_sync_timeout : Nat

/-- The data members of `local_actor` that the member functions below read or
write (`m_current_node_mid` is `m_current_node->mid`; an empty
`std::function` is `none`), with the calls made so far. -/
structure local_actor where
  m_trap_exit : Bool
  m_last_request_id : message_id
  m_pending_responses : List message_id
  m_current_node_mid : message_id
  m_planned_exit_reason : Nat
  m_sync_failure_handler : Option Nat
  m_sync_timeout_handler : Option Nat
  calls : List actor_call
  deriving DecidableEq, Repr

namespace local_actor

/-- An actor that has sent no request and has no handler. -/
def fresh : local_actor :=
  { m_trap_exit := false, m_last_request_id := message_id.invalid,
    m_pending_responses := [], m_current_node_mid := message_id.invalid,
    m_planned_exit_reason := 0, m_sync_failure_handler := none,
    m_sync_timeout_handler := none, calls := [] }

/-- The member `on_sync_timeout(fun)`; `handler` is its argument `fun`. -/
def on_sync_timeout (self : local_actor) (handler : Option Nat) : local_actor :=
  { self with m_sync_timeout_handler := handler }

/-- The member `on_sync_failure(fun)`; `handler` is its argument `fun`. -/
def on_sync_failure (self : local_actor) (handler : Option Nat) : local_actor :=
  { self with m_sync_failure_handler := handler }

/-- The member `new_request_id()`: the returned id and the actor afterwards. -/
def new_request_id (self : local_actor) : message_id × local_actor :=
  let result := self.m_last_request_id.incr
  (result,
    { self with
      m_last_request_id := result
      m_pending_responses := self.m_pending_responses ++ [result.response_id] })

/-- The member `handle_sync_timeout()`. -/
def handle_sync_timeout (er : exit_reason) (self : local_actor) : local_actor :=
  match self.m_sync_timeout_handler with
  | some handler => { self with calls := self.calls ++ [actor_call.invoke handler] }
  | none => { self with calls := self.calls ++ [actor_call.quit er.unhandled_sync_timeout] }

/-- The member `handle_sync_failure()`. -/
def handle_sync_failure (er : exit_reason) (self : local_actor) : local_actor :=
  match self.m_sync_failure_handler with
  | some handler => { self with calls := self.calls ++ [actor_call.invoke handler] }
  | none => { self with calls := self.calls ++ [actor_call.quit er.unhandled_sync_failure] }

/-- The member `get_response_id()`. -/
def get_response_id (self : local_actor) : message_id :=
  let id := self.m_current_node_mid
  if id.is_request then id.response_id else message_id.invalid

/-- The member `awaits(response_id)`: `std::any_of` over the pending
responses. The assertion `CPPA_REQUIRE(response_id.is_response())` states a
precondition and does not take part in the result. -/
def awaits (self : local_actor) (response_id : message_id) : Bool :=
  self.m_pending_responses.any (fun other => decide (response_id = other))

/-- The position that `std::find(first, last, value)` returns: that of the
first element equal to `value`, the length of the range when there is none. -/
def std_find (range : List message_id) (value : message_id) : Nat :=
  match range with
  | [] => 0
  | x :: rest => if x = value then 0 else std_find rest value + 1

/-- The member `mark_arrived(response_id)`. -/
def mark_arrived (self : local_actor) (response_id : message_id) : local_actor :=
  let last := self.m_pending_responses.length
  let i := std_find self.m_pending_responses response_id
  if i ≠ last then
    { self with m_pending_responses := self.m_pending_responses.eraseIdx i }
  else self

/-- The ids that `n` successive calls of `new_request_id()` return, in the
order of the calls, and the actor after them. -/
def new_request_ids : Nat → local_actor → List message_id × local_actor
  | 0, self => ([], self)
  | n + 1, self =>
    let first := self.new_request_id
    let others := new_request_ids n first.2
    (first.1 :: others.1, others.2)

end local_actor

/-- A call of one of the two member functions of `local_actor` that change
the bookkeeping of synchronous requests. -/
inductive request_call where
  | new_request_id
  | mark_arrived (response_id : message_id)
  deriving DecidableEq, Repr

namespace local_actor

/-- The ids that the calls of `new_request_id()` among `calls` return, in the
order of the calls, and the actor after all the calls; the calls of
`mark_arrived` in between remove pending responses. -/
def run_request_calls : List request_call → local_actor → List message_id × local_actor
  | [], self => ([], self)
  | request_call.new_request_id :: rest, self =>
    let first := self.new_request_id
    let others := run_request_calls rest first.2
    (first.1 :: others.1, others.2)
  | request_call.mark_arrived response_id :: rest, self =>
    run_request_calls rest (self.mark_arrived response_id)

end local_actor

/-! ## limited_vector (cppa/util/limited_vector.hpp) -/

namespace util

/-- The class template `limited_vector<T, MaxSize>`: the member `m_size` (a
`size_t`) and the array `m_data`, given as the list of its elements. The
array has `MaxSize` elements, and one element when `MaxSize` is 0. The
elements of the vector are the first `m_size` elements of the array. -/
structure limited_vector (T : Type) (MaxSize : Nat) where
  m_size : Nat
  m_data : List T
  deriving DecidableEq, Repr

/-- The algorithm `std::copy(first, last, d_first)` from a range outside the
array into the array `data`, with `d_first` at the index `d`: one assignment
per element, in increasing order. -/
def std_copy {T : Type} : List T → List T → Nat → List T
  | [], data, _ => data
  | x :: rest, data, d => std_copy rest (data.set d x) (d + 1)

/-- The algorithm `std::copy_backward(first, last, d_last)` inside the array
`data`: the `count` elements that end before the index `last` are assigned,
from the last to the first, to the positions that end before the index
`d_last`. -/
def std_copy_backward {T : Type} : Nat → List T → Nat → Nat → List T
  | 0, data, _, _ => data
  | count + 1, data, last, d_last =>
    match data[last - 1]? with
    | some x => std_copy_backward count (data.set (d_last - 1) x) (last - 1) (d_last - 1)
    | none => data

/-- The algorithms `std::fill_n(first, count, value)` and
`std::fill(first, last, value)` on the array `data`, with `first` at the index
`d`: one assignment per position. -/
def std_fill {T : Type} : Nat → List T → Nat → T → List T
  | 0, data, _, _ => data
  | count + 1, data, d, value => std_fill count (data.set d value) (d + 1) value

namespace limited_vector

variable {T : Type} {MaxSize : Nat}

/-- The number of elements of the array `m_data`,
`(MaxSize > 0) ? MaxSize : 1`. -/
def array_size (MaxSize : Nat) : Nat := if MaxSize > 0 then MaxSize else 1

/-- The elements of the vector, the range from `begin()` to `end()`. -/
def elements (self : limited_vector T MaxSize) : List T :=
  self.m_data.take self.m_size

/-- The constructor `limited_vector()`; `array` is the content of the array,
which the constructor does not initialize. -/
def default_ctor (array : List T) : limited_vector T MaxSize :=
  { m_size := 0, m_data := array }

/-- The constructor `limited_vector(size_t initial_size)`; `array` is the
content of the array before `std::fill_n`. -/
def size_ctor [Zero T] (array : List T) (initial_size : Nat) : limited_vector T MaxSize :=
  { m_size := initial_size, m_data := std_fill initial_size array 0 0 }

/-- The copy constructor `limited_vector(const limited_vector& other)`. -/
def copy_ctor (array : List T) (other : limited_vector T MaxSize) : limited_vector T MaxSize :=
  { m_size := other.m_size, m_data := std_copy other.elements array 0 }

/-- The member `resize(s)`. The assertion `CPPA_REQUIRE(s <= MaxSize)` states
its precondition. -/
def resize (self : limited_vector T MaxSize) (s : Nat) : limited_vector T MaxSize :=
  { self with m_size := s }

/-- The copy assignment `operator=(const limited_vector& other)`. -/
def copy_assign (self other : limited_vector T MaxSize) : limited_vector T MaxSize :=
  let resized := self.resize other.m_size
  { resized with m_data := std_copy other.elements resized.m_data 0 }

/-- The constructor `limited_vector(std::initializer_list<T> init)`. The
assertion `CPPA_REQUIRE(init.size() <= MaxSize)` states its precondition. -/
def init_ctor (array : List T) (init : List T) : limited_vector T MaxSize :=
  { m_size := init.length, m_data := std_copy init array 0 }

/-- The member `assign(count, value)`. -/
def assign (self : limited_vector T MaxSize) (count : Nat) (value : T) :
    limited_vector T MaxSize :=
  let resized := self.resize count
  { resized with m_data := std_fill resized.m_size resized.m_data 0 value }

/-- The member `assign(first, last)` for a range given as the list of its
elements; `dist` is the length of the list. -/
def assign_range (self : limited_vector T MaxSize) (range : List T) :
    limited_vector T MaxSize :=
  let dist := range.length
  let resized := self.resize dist
  { resized with m_data := std_copy range resized.m_data 0 }

/-- The member `size()`. -/
def size (self : limited_vector T MaxSize) : Nat := self.m_size

/-- The member `max_size()`. -/
def max_size (_self : limited_vector T MaxSize) : Nat := MaxSize

/-- The member `clear()`. -/
def clear (self : limited_vector T MaxSize) : limited_vector T MaxSize :=
  { self with m_size := 0 }

/-- The member `empty()`. -/
def empty (self : limited_vector T MaxSize) : Bool := decide (self.m_size = 0)

/-- The member `full()`. -/
def full (self : limited_vector T MaxSize) : Bool := decide (self.m_size = MaxSize)

/-- The member `push_back(what)`: `m_data[m_size++] = what` on a `size_t`.
The assertion `CPPA_REQUIRE(!full())` states its precondition. -/
def push_back (self : limited_vector T MaxSize) (what : T) : limited_vector T MaxSize :=
  { m_size := (self.m_size + 1) % 2 ^ 64, m_data := self.m_data.set self.m_size what }

/-- The member `pop_back()`: `--m_size` on a `size_t`, which wraps around
from 0 to `2 ^ 64 - 1`. The assertion `CPPA_REQUIRE(!empty())` states its
precondition. -/
def pop_back (self : limited_vector T MaxSize) : limited_vector T MaxSize :=
  { self with m_size := if self.m_size = 0 then 2 ^ 64 - 1 else self.m_size - 1 }

/-- The member `insert(pos, first, last)`: `pos` is `begin() + pos`, the
range from `first` to `last` is given as the list of its elements and lies
outside the vector. The result is the message of the `std::length_error` that
is thrown, if one is, and the vector afterwards. The sum
`size() + num_elements` is one of `size_t`. -/
def insert (self : limited_vector T MaxSize) (pos : Nat) (range : List T) :
    Option String × limited_vector T MaxSize :=
  let num_elements := range.length
  if (self.size + num_elements) % 2 ^ 64 > MaxSize then
    (some "limited_vector::insert: too much elements", self)
  else if pos = self.m_size then
    let resized := self.resize ((self.size + num_elements) % 2 ^ 64)
    (none, { resized with m_data := std_copy range resized.m_data pos })
  else
    let old_end := self.m_size
    let resized := self.resize ((self.size + num_elements) % 2 ^ 64)
    let moved := std_copy_backward (old_end - pos) resized.m_data old_end resized.m_size
    (none, { resized with m_data := std_copy range moved pos })

end limited_vector

end util

/-! ## host ids from strings (src/node_id.cpp) -/

/-- The function `hex_char_value` of the unnamed namespace: the value of a
hexadecimal digit, or the message of the `std::invalid_argument` that it
throws. A `char` is given by its code; `isdigit` and `isalpha` are those of
the "C" locale. -/
def hex_char_value (c : Char) : Except String Nat :=
  if c.isDigit then
    Except.ok (c.toNat - '0'.toNat)
  else if c.isAlpha then
    if c ≥ 'a' ∧ c ≤ 'f' then
      Except.ok ((c.toNat - 'a'.toNat) + 10)
    else if c ≥ 'A' ∧ c ≤ 'F' then
      Except.ok ((c.toNat - 'A'.toNat) + 10)
    else
      Except.error ("illegal character: ".push c)
  else
    Except.error ("illegal character: ".push c)

/-- The loop of `host_id_from_string` over the `count` bytes that are left:
`j` are the characters that are left of the string, `i` is the index of the
byte and `node_id` the array that the loop writes to. Each round assigns
`hex_char_value(*j++) << 4` to the byte, as a `uint8_t`, and then ors
`hex_char_value(*j++)` into it. The result is the message of the exception
that is thrown, if one is, and the array afterwards. The string has two
characters per byte: the last case is never reached. -/
def host_id_from_string_loop : Nat → List Char → Nat → List Nat → Option String × List Nat
  | 0, _, _, node_id => (none, node_id)
  | count + 1, c1 :: c2 :: j, i, node_id =>
    match hex_char_value c1 with
    | Except.error e => (some e, node_id)
    | Except.ok high =>
      let val := (high <<< 4) % 256
      match hex_char_value c2 with
      | Except.error e => (some e, node_id.set i val)
      | Except.ok low =>
        host_id_from_string_loop count j (i + 1)
          ((node_id.set i val).set i ((val ||| low) % 256))
  | _ + 1, _, _, node_id => (none, node_id)

/-- The function `host_id_from_string(hash, node_id)`: the message of the
`std::invalid_argument` that is thrown, if one is, and the bytes of `node_id`
afterwards. -/
def host_id_from_string (hash : String) (node_id : host_id_type) :
    Option String × List Nat :=
  if hash.length ≠ node_id.data.length * 2 then
    (some "string argument is not a node id hash", node_id.data)
  else
    host_id_from_string_loop node_id.data.length hash.data 0 node_id.data

/-- The characters `[0-9a-fA-F]`. -/
def is_hex_char (c : Char) : Prop := c ∈ "0123456789abcdefABCDEF".data

/-- The value of a hexadecimal digit: the position of the digit, in lower
case, among the sixteen digits. -/
def hex_digit_value (c : Char) : Nat := "0123456789abcdef".data.indexOf c.toLower

/-- The bytes that a string of hexadecimal digits stands for, two digits per
byte, the first of them for the high four bits. -/
def hex_bytes : List Char → List Nat
  | c1 :: c2 :: rest => (16 * hex_digit_value c1 + hex_digit_value c2) :: hex_bytes rest
  | _ => []

/-- The host id whose bytes are all zero. -/
def host_id_zero : host_id_type :=
  { data := List.replicate 20 0, size_eq := by rfl, byte_lt := by decide }

/-! ## intrusive_ptr (cppa/intrusive_ptr.hpp) -/

/-- The members `ref()` and `deref()` of the pointee, which change its
reference count. The class of the pointee is declared outside the sources:
the two members are parameters, functions on the state `counts` of the
reference counts. -/
structure ref_counting (pointer counts : Type) where
  ref : pointer → counts → counts
  deref : pointer → counts → counts

/-- The class template `intrusive_ptr<T>`: the raw pointer `m_ptr`, `none` for
`nullptr`. -/
structure intrusive_ptr (pointer : Type) where
  m_ptr : Option pointer
  deriving DecidableEq, Repr

namespace intrusive_ptr

variable {pointer counts : Type}

/-- The private member `set_ptr(raw_ptr)`: the pointer afterwards and the
reference counts afterwards. -/
def set_ptr (rc : ref_counting pointer counts) (raw_ptr : Option pointer) (c : counts) :
    intrusive_ptr pointer × counts :=
  match raw_ptr with
  | some p => (⟨raw_ptr⟩, rc.ref p c)
  | none => (⟨raw_ptr⟩, c)

/-- The constructor `intrusive_ptr(pointer raw_ptr)`. -/
def from_raw (rc : ref_counting pointer counts) (raw_ptr : Option pointer) (c : counts) :
    intrusive_ptr pointer × counts :=
  set_ptr rc raw_ptr c

/-- The member `get()`. -/
def get (self : intrusive_ptr pointer) : Option pointer := self.m_ptr

/-- The member `release()`: the returned raw pointer, the pointer afterwards
and the reference counts afterwards. -/
def release (self : intrusive_ptr pointer) (c : counts) :
    Option pointer × intrusive_ptr pointer × counts :=
  let result := self.m_ptr
  (result, ⟨none⟩, c)

/-- The member `reset(new_value)`. -/
def reset (rc : ref_counting pointer counts) (self : intrusive_ptr pointer)
    (new_value : Option pointer) (c : counts) : intrusive_ptr pointer × counts :=
  match self.m_ptr with
  | some p => set_ptr rc new_value (rc.deref p c)
  | none => set_ptr rc new_value c

/-- The destructor `~intrusive_ptr()`: the reference counts afterwards. -/
def destroy (rc : ref_counting pointer counts) (self : intrusive_ptr pointer) (c : counts) :
    counts :=
  match self.m_ptr with
  | some p => rc.deref p c
  | none => c

end intrusive_ptr

/-- Reference counts as a function from the address of an object to its
count, with `ref()` adding one and `deref()` taking one away, for examples. -/
def counting_example : ref_counting Nat (Nat → Nat) :=
  { ref := fun p c q => if q = p then c q + 1 else c q
    deref := fun p c q => if q = p then c q - 1 else c q }

/-! ## actor_registry (cppa/detail/actor_registry.hpp) -/

/-- The id of an actor, `actor_id` (a `std::uint32_t`). -/
abbrev actor_id := Nat

/-- A registry entry `actor_registry::value_type`: the pointer to the actor,
`none` for `nullptr`, and an exit reason. -/
abbrev registry_entry (abstract_actor_ptr : Type) := Option abstract_actor_ptr × Nat

/-- The data member `m_entries` of `actor_registry`, a map from actor ids to
entries with one entry per id. -/
structure actor_registry (abstract_actor_ptr : Type) where
  m_entries : List (actor_id × registry_entry abstract_actor_ptr)

namespace actor_registry

variable {abstract_actor_ptr : Type}

/-- Modelled from the spec: the member `get_entry(key)` is defined in a source
file that is not among the sources. It returns both fields of the entry of
`key`, and `(nullptr, 0)`, with 0 the invalid exit reason, when the registry
has no entry for `key`. -/
def get_entry (self : actor_registry abstract_actor_ptr) (key : actor_id) :
    registry_entry abstract_actor_ptr :=
  match self.m_entries.find? (fun e => decide (e.1 = key)) with
  | some e => e.2
  | none => (none, 0)

/-- The inline member `get(key)`; the member `get_entry` that it calls is the
parameter `entry_of`. -/
def get (entry_of : actor_registry abstract_actor_ptr → actor_id →
      registry_entry abstract_actor_ptr)
    (self : actor_registry abstract_actor_ptr) (key : actor_id) :
    Option abstract_actor_ptr :=
  (entry_of self key).1

end actor_registry

/-- A registry in which actor 1 is alive (its object is named 100) and actor 2
has exited with reason 7, for examples. -/
def registry_example : actor_registry Nat :=
  { m_entries := [(1, (some 100, 0)), (2, (none, 7))] }

/-! ## middleman_event_handler: further examples -/

/-- A continuable that reads on descriptor 3 and writes on descriptor 4, for
examples. -/
def continuable_rw : continuable := ⟨3, 3, 4⟩

/-- A handler whose meta-set watches descriptor 3 for reading and descriptor 4
for writing, both for the continuable `continuable_rw`, after
`erase_later(continuable_rw, event::both)`. -/
def handler_erase_both : middleman_event_handler :=
  erase_later
    (handler_with [⟨3, continuable_rw, event.read⟩, ⟨4, continuable_rw, event.write⟩] [])
    continuable_rw event.both

/-- A handler whose meta-set watches descriptor 5 for reading, after
`erase_later(p, event::read)`, `add_later(p, event::read)` and
`erase_later(p, event::read)`. -/
def handler_remove_add_remove : middleman_event_handler :=
  erase_later
    (add_later
      (erase_later (handler_with [⟨5, continuable_p, event.read⟩] [])
        continuable_p event.read)
      continuable_p event.read)
    continuable_p event.read

/-! # Theorems -/

/-! ## node_id -/

theorem toDigitsCore_append (b : Nat) :
    ∀ (fuel n : Nat) (acc : List Char),
      Nat.toDigitsCore b fuel n acc = Nat.toDigitsCore b fuel n [] ++ acc := by
  intro fuel
  induction fuel with
  | zero => intro n acc; simp [Nat.toDigitsCore]
  | succ f ih =>
    intro n acc
    simp only [Nat.toDigitsCore]
    by_cases h : n / b = 0
    · simp [h]
    · simp only [h, if_false]
      rw [ih (n / b) (Nat.digitChar (n % b) :: acc), ih (n / b) [Nat.digitChar (n % b)]]
      simp

theorem toDigitsCore_succ (b fuel n : Nat) :
    Nat.toDigitsCore b (fuel + 1) n [] =
      if n / b = 0 then [Nat.digitChar (n % b)]
      else Nat.toDigitsCore b fuel (n / b) [] ++ [Nat.digitChar (n % b)] := by
  simp only [Nat.toDigitsCore]
  by_cases h : n / b = 0
  · simp [h]
  · simp only [h, if_false]
    exact toDigitsCore_append b fuel (n / b) _

theorem digitChar_decimal (k : Nat) (hk : k < 10) :
    (Nat.digitChar k).isDigit = true ∧ (Nat.digitChar k).toNat - 48 = k ∧
      (k ≠ 0 → Nat.digitChar k ≠ '0') := by
  interval_cases k <;> decide

theorem decimal_value_snoc (cs : List Char) (c : Char) :
    decimal_value (cs ++ [c]) = 10 * decimal_value cs + (c.toNat - 48) := by
  simp [decimal_value, List.foldl_append]

theorem toDigitsCore_decimal :
    ∀ (fuel n : Nat), n < fuel →
      (∀ c ∈ Nat.toDigitsCore 10 fuel n [], c.isDigit = true) ∧
      decimal_value (Nat.toDigitsCore 10 fuel n []) = n ∧
      (n ≠ 0 → (Nat.toDigitsCore 10 fuel n []).head? ≠ some '0') ∧
      Nat.toDigitsCore 10 fuel n [] ≠ [] := by
  intro fuel
  induction fuel with
  | zero => intro n h; omega
  | succ f ih =>
    intro n hn
    rw [toDigitsCore_succ]
    have hmod : n % 10 < 10 := Nat.mod_lt _ (by norm_num)
    obtain ⟨hd, hv, hz⟩ := digitChar_decimal (n % 10) hmod
    by_cases h : n / 10 = 0
    · have hlt : n < 10 := by omega
      have hm : n % 10 = n := Nat.mod_eq_of_lt hlt
      simp only [h, if_true]
      refine ⟨?_, ?_, ?_, by simp⟩
      · intro c hc
        simp only [List.mem_singleton] at hc
        rw [hc]; exact hd
      · simp only [decimal_value, List.foldl]
        omega
      · intro hn0
        simp only [List.head?, ne_eq, Option.some.injEq]
        exact hz (by omega)
    · simp only [h, if_false]
      obtain ⟨ihd, ihv, ihz, ihne⟩ := ih (n / 10) (by omega)
      refine ⟨?_, ?_, ?_, by simp⟩
      · intro c hc
        rcases List.mem_append.mp hc with hc | hc
        · exact ihd c hc
        · simp only [List.mem_singleton] at hc
          rw [hc]; exact hd
      · rw [decimal_value_snoc, ihv, hv]
        omega
      · intro _
        cases hcs : Nat.toDigitsCore 10 f (n / 10) [] with
        | nil => exact absurd hcs ihne
        | cons c cs =>
          have := ihz h
          rw [hcs] at this
          simpa using this

theorem ostream_put_hex_byte (b : Nat) (hb : b < 256) :
    ostream_put 16 2 '0' b = [hex_digit (b / 16), hex_digit (b % 16)] := by
  interval_cases b <;> rfl

theorem hex_digit_mem (v : Nat) (hv : v < 16) :
    hex_digit v ∈ "0123456789abcdef".data := by
  interval_cases v <;> decide

theorem to_string_host_id_loop_spec :
    ∀ (bytes : List Nat), (∀ b ∈ bytes, b < 256) →
      to_string_host_id_loop bytes =
        bytes.flatMap (fun b => [hex_digit (b / 16), hex_digit (b % 16)]) := by
  intro bytes
  induction bytes with
  | nil => intro _; rfl
  | cons b rest ih =>
    intro h
    simp only [to_string_host_id_loop, List.flatMap_cons]
    rw [ostream_put_hex_byte b (h b (List.mem_cons_self _ _)),
      ih (fun x hx => h x (List.mem_cons_of_mem _ hx))]

theorem hex_pairs_length (bytes : List Nat) :
    (bytes.flatMap (fun b => [hex_digit (b / 16), hex_digit (b % 16)])).length =
      2 * bytes.length := by
  induction bytes with
  | nil => rfl
  | cons b rest ih => simp only [List.flatMap_cons, List.length_append, ih]; simp; omega

/-- C1, at the failing input: `node_id::compare` returns 0 for two node ids of
the same process whose host ids differ in the byte behind a zero byte, because
`strncmp` stops comparing at the zero byte. -/
theorem node_id_compare_zero_byte :
    node_id_example_a.compare node_id_example_b = 0 ∧
      node_id_example_a.process_id = node_id_example_b.process_id ∧
      node_id_example_a.host_id.data ≠ node_id_example_b.host_id.data := by
  refine ⟨by rfl, by rfl, by decide⟩

/-- C2: `to_string` of a node id is the decimal rendering of the process id
(the string `Nat.repr` gives: decimal digits only, of value `process_id`,
without a leading zero, and the single digit `0` when the id is 0), then
`'@'`, then 40 characters from `[0-9a-f]`: the host id bytes in order, each
as two digits with the high nibble first. -/
theorem to_string_node_id_format (n : node_id) :
    ∃ dec hex : List Char,
      to_string n = String.mk (dec ++ '@' :: hex) ∧
      (∀ c ∈ dec, c.isDigit = true) ∧ decimal_value dec = n.process_id ∧
      dec ≠ [] ∧ (n.process_id ≠ 0 → dec.head? ≠ some '0') ∧
      (n.process_id = 0 → dec = ['0']) ∧ dec = (Nat.repr n.process_id).data ∧
      hex.length = 40 ∧ (∀ c ∈ hex, c ∈ "0123456789abcdef".data) ∧
      hex = n.host_id.data.flatMap (fun b => [hex_digit (b / 16), hex_digit (b % 16)]) := by
  obtain ⟨hd, hv, hz, hne⟩ :=
    toDigitsCore_decimal (n.process_id + 1) n.process_id (Nat.lt_succ_self _)
  refine ⟨Nat.toDigits 10 n.process_id,
    n.host_id.data.flatMap (fun b => [hex_digit (b / 16), hex_digit (b % 16)]),
    ?_, hd, hv, hne, hz, ?_, rfl, ?_, ?_, rfl⟩
  · simp only [to_string, to_string_host_id, ostream_put]
    rw [to_string_host_id_loop_spec _ n.host_id.byte_lt]
    apply String.ext
    simp
  · intro h0
    rw [h0]
    rfl
  · rw [hex_pairs_length, n.host_id.size_eq]; rfl
  · intro c hc
    rcases List.mem_flatMap.mp hc with ⟨b, hb, hc⟩
    have hlt := n.host_id.byte_lt b hb
    simp only [List.mem_cons, List.mem_singleton, List.not_mem_nil, or_false] at hc
    rcases hc with hc | hc
    · rw [hc]; exact hex_digit_mem _ (by omega)
    · rw [hc]; exact hex_digit_mem _ (Nat.mod_lt _ (by norm_num))


/-! ## middleman_event_handler -/

theorem lower_bound_append (m : List fd_meta_info) (fd : native_socket_type) :
    (lower_bound m fd).1 ++ (lower_bound m fd).2 = m := by
  simp [lower_bound, List.takeWhile_append_dropWhile]

theorem lower_bound_before (m : List fd_meta_info) (fd : native_socket_type) :
    ∀ e ∈ (lower_bound m fd).1, e.fd < fd := by
  intro e he
  have := List.mem_takeWhile_imp he
  simpa [mless] using this

theorem dropWhile_head_false {α : Type} (p : α → Bool) :
    ∀ (l : List α) (x : α) (xs : List α), l.dropWhile p = x :: xs → p x = false := by
  intro l
  induction l with
  | nil => intro x xs h; simp at h
  | cons y ys ih =>
    intro x xs h
    by_cases hy : p y = true
    · rw [List.dropWhile_cons_of_pos hy] at h
      exact ih x xs h
    · rw [List.dropWhile_cons_of_neg hy] at h
      simp only [List.cons.injEq] at h
      rw [← h.1]
      simpa using hy

theorem lower_bound_rest_head (m : List fd_meta_info) (fd : native_socket_type)
    (iter : fd_meta_info) (tail : List fd_meta_info)
    (h : (lower_bound m fd).2 = iter :: tail) : fd ≤ iter.fd := by
  have h2 := dropWhile_head_false (fun lhs => mless lhs fd) m iter tail h
  simpa [mless] using h2

theorem update_step_meta (self : middleman_event_handler)
    (a : fd_meta_info × fd_meta_event) :
    (update_step self a).m_meta = self.m_meta ∨
    ((update_step self a).m_meta =
        (lower_bound self.m_meta a.1.fd).1 ++ a.1 :: (lower_bound self.m_meta a.1.fd).2 ∧
      ∀ iter tail, (lower_bound self.m_meta a.1.fd).2 = iter :: tail → iter.fd ≠ a.1.fd) ∨
    (∃ iter tail, (lower_bound self.m_meta a.1.fd).2 = iter :: tail ∧ iter.fd = a.1.fd ∧
      (update_step self a).m_meta = (lower_bound self.m_meta a.1.fd).1 ++ tail) ∨
    (∃ iter tail mask, (lower_bound self.m_meta a.1.fd).2 = iter :: tail ∧
      iter.fd = a.1.fd ∧ mask ≠ event.none ∧
      (update_step self a).m_meta =
        (lower_bound self.m_meta a.1.fd).1 ++ { iter with mask := mask } :: tail) := by
  unfold update_step
  simp only []
  generalize (lower_bound self.m_meta a.1.fd).1 = before
  generalize (lower_bound self.m_meta a.1.fd).2 = rest
  cases rest with
  | nil =>
    simp only
    split
    · right; left
      simp
    · left; rfl
  | cons iter tail =>
    simp only
    split
    · rename_i hne
      split
      · right; left
        refine ⟨rfl, ?_⟩
        intro i t h
        simp only [List.cons.injEq] at h
        rw [← h.1]; exact hne
      · left; rfl
    · rename_i heq
      have heq : iter.fd = a.1.fd := by simpa using heq
      split
      · right; right; left
        exact ⟨iter, tail, rfl, heq, rfl⟩
      · rename_i hmask
        right; right; right
        exact ⟨iter, tail, _, rfl, heq, hmask, rfl⟩

theorem update_step_sorted (self : middleman_event_handler)
    (a : fd_meta_info × fd_meta_event) (hs : meta_sorted self.m_meta) :
    meta_sorted (update_step self a).m_meta := by
  have happ := lower_bound_append self.m_meta a.1.fd
  have hs2 : meta_sorted ((lower_bound self.m_meta a.1.fd).1 ++ (lower_bound self.m_meta a.1.fd).2) := by
    rw [happ]; exact hs
  unfold meta_sorted at hs2 ⊢
  rw [List.pairwise_append] at hs2
  obtain ⟨hs1, hs3, hs4⟩ := hs2
  have hbefore := lower_bound_before self.m_meta a.1.fd
  rcases update_step_meta self a with h | ⟨h, hne⟩ | ⟨iter, tail, hlb, _, h⟩ |
      ⟨iter, tail, mask, hlb, _, _, h⟩
  · rw [h]; exact hs
  · rw [h, List.pairwise_append]
    refine ⟨hs1, ?_, ?_⟩
    · rw [List.pairwise_cons]
      refine ⟨?_, hs3⟩
      intro b hb
      cases hrest : (lower_bound self.m_meta a.1.fd).2 with
      | nil => rw [hrest] at hb; simp at hb
      | cons iter tail =>
        have h1 := lower_bound_rest_head self.m_meta a.1.fd iter tail hrest
        have h2 := hne iter tail hrest
        have h3 : a.1.fd < iter.fd := lt_of_le_of_ne h1 (fun hh => h2 hh.symm)
        rw [hrest] at hb hs3
        rcases List.mem_cons.mp hb with hb | hb
        · rw [hb]; exact h3
        · exact lt_trans h3 ((List.pairwise_cons.mp hs3).1 b hb)
    · intro x hx y hy
      rcases List.mem_cons.mp hy with hy | hy
      · rw [hy]; exact hbefore x hx
      · exact hs4 x hx y hy
  · rw [h, List.pairwise_append]
    rw [hlb] at hs3 hs4
    exact ⟨hs1, (List.pairwise_cons.mp hs3).2,
      fun x hx y hy => hs4 x hx y (List.mem_cons_of_mem _ hy)⟩
  · rw [h, List.pairwise_append]
    rw [hlb] at hs3 hs4
    refine ⟨hs1, ?_, ?_⟩
    · rw [List.pairwise_cons]
      exact ⟨fun b hb => (List.pairwise_cons.mp hs3).1 b hb, (List.pairwise_cons.mp hs3).2⟩
    · intro x hx y hy
      rcases List.mem_cons.mp hy with hy | hy
      · rw [hy]; exact hs4 x hx iter (List.mem_cons_self _ _)
      · exact hs4 x hx y (List.mem_cons_of_mem _ hy)

theorem foldl_update_step_sorted (alts : List (fd_meta_info × fd_meta_event)) :
    ∀ (self : middleman_event_handler), meta_sorted self.m_meta →
      meta_sorted (alts.foldl update_step self).m_meta := by
  induction alts with
  | nil => intro self hs; simpa using hs
  | cons a rest ih =>
    intro self hs
    simp only [List.foldl_cons]
    exact ih _ (update_step_sorted self a hs)

theorem not_in_meta_iff (m : List fd_meta_info) (fd : native_socket_type)
    (hs : meta_sorted m) :
    not_in_meta m fd = true ↔ ∀ e ∈ m, e.fd ≠ fd := by
  have happ := lower_bound_append m fd
  have hbefore := lower_bound_before m fd
  have hs2 : meta_sorted ((lower_bound m fd).1 ++ (lower_bound m fd).2) := by
    rw [happ]; exact hs
  unfold meta_sorted at hs2
  rw [List.pairwise_append] at hs2
  obtain ⟨_, hs3, _⟩ := hs2
  unfold not_in_meta
  cases hrest : (lower_bound m fd).2 with
  | nil =>
    simp only [true_iff]
    intro e he
    rw [← happ, hrest, List.append_nil] at he
    exact ne_of_lt (hbefore e he)
  | cons iter tail =>
    have h1 := lower_bound_rest_head m fd iter tail hrest
    simp only [decide_eq_true_eq]
    constructor
    · intro hne e he
      rw [← happ, hrest] at he
      rcases List.mem_append.mp he with he | he
      · exact ne_of_lt (hbefore e he)
      · have h3 : fd < iter.fd := lt_of_le_of_ne h1 (fun hh => hne hh.symm)
        rw [hrest] at hs3
        rcases List.mem_cons.mp he with he | he
        · rw [he]; exact ne_of_gt h3
        · exact ne_of_gt (lt_trans h3 ((List.pairwise_cons.mp hs3).1 e he))
    · intro hall
      exact hall iter (by rw [← happ, hrest]; simp)

theorem dispose_condition_iff (m : List fd_meta_info) (elem : continuable) :
    dispose_condition m elem = true ↔
      not_in_meta m elem.read_handle = true ∧ not_in_meta m elem.write_handle = true := by
  unfold dispose_condition
  by_cases h : elem.read_handle = elem.write_handle
  · simp [h]
  · simp [h]

theorem update_step_disposed (self : middleman_event_handler)
    (a : fd_meta_info × fd_meta_event) :
    (update_step self a).disposed = self.disposed := by
  unfold update_step
  simp only []
  generalize (lower_bound self.m_meta a.1.fd).1 = before
  generalize (lower_bound self.m_meta a.1.fd).2 = rest
  cases rest with
  | nil => simp only; split <;> rfl
  | cons iter tail =>
    simp only
    split
    · split <;> rfl
    · split <;> rfl

theorem foldl_update_step_disposed (alts : List (fd_meta_info × fd_meta_event)) :
    ∀ (self : middleman_event_handler),
      (alts.foldl update_step self).disposed = self.disposed := by
  induction alts with
  | nil => intro self; rfl
  | cons a rest ih =>
    intro self
    simp only [List.foldl_cons]
    rw [ih, update_step_disposed]

/-- C3, at the failing input: descriptor 3 has no entry in the meta-set, whose
only entry is for descriptor 5 with mask `read`. An erase alteration of mask
`write` for descriptor 3 takes the mask of the entry of descriptor 5 as the
old mask, reports an add event with the new mask `read` and inserts an entry
for descriptor 3 into the meta-set. -/
theorem update_erase_absent_fd :
    handler_erase_absent.m_alterations =
        [(⟨3, continuable_q, event.write⟩, fd_meta_event.erase)] ∧
      stored_mask handler_erase_absent.m_meta 3 = event.none ∧
      meta_sorted handler_erase_absent.m_meta ∧
      (update handler_erase_absent).m_meta =
        [⟨3, continuable_q, event.write⟩, ⟨5, continuable_p, event.read⟩] ∧
      (update handler_erase_absent).events =
        [⟨fd_meta_event.add, 3, event.none, event.read, continuable_q⟩] ∧
      (update handler_erase_absent).m_meta ≠ handler_erase_absent.m_meta := by
  refine ⟨by decide, by decide, by unfold meta_sorted; decide, by decide, by decide, by decide⟩

/-- C5: on a sorted meta-set, `update()` invokes `dispose()` on a continuable
that it scheduled for disposal if and only if the meta-set, after all
alterations of the batch have been folded, has no entry for its read handle
and none for its write handle; a continuable one of whose handles has an entry
again at the end of the batch is not disposed. -/
theorem update_disposes_iff (self : middleman_event_handler)
    (hs : meta_sorted self.m_meta) :
    (update self).disposed = self.disposed ++ update_disposes self ∧
    (∀ c ∈ (update_fold self).m_dispose_list,
      (c ∈ update_disposes self ↔
        (∀ e ∈ (update self).m_meta, e.fd ≠ c.read_handle) ∧
        (∀ e ∈ (update self).m_meta, e.fd ≠ c.write_handle))) ∧
    (∀ c, (∃ e ∈ (update self).m_meta, e.fd = c.read_handle ∨ e.fd = c.write_handle) →
      c ∉ update_disposes self) := by
  have hsorted : meta_sorted (update_fold self).m_meta :=
    foldl_update_step_sorted self.m_alterations self hs
  have hmeta : (update self).m_meta = (update_fold self).m_meta := rfl
  have hmem : ∀ c, c ∈ update_disposes self ↔
      c ∈ (update_fold self).m_dispose_list ∧
        (∀ e ∈ (update_fold self).m_meta, e.fd ≠ c.read_handle) ∧
        (∀ e ∈ (update_fold self).m_meta, e.fd ≠ c.write_handle) := by
    intro c
    unfold update_disposes
    simp only [List.mem_filter, dispose_condition_iff]
    rw [not_in_meta_iff _ _ hsorted, not_in_meta_iff _ _ hsorted]
  refine ⟨?_, ?_, ?_⟩
  · show (update_fold self).disposed ++ update_disposes self = _
    unfold update_fold
    rw [foldl_update_step_disposed]
  · intro c hc
    rw [hmeta, hmem]
    exact ⟨fun h => h.2, fun h => ⟨hc, h⟩⟩
  · intro c ⟨e, he, hfd⟩ hin
    rw [hmeta] at he
    have := (hmem c).mp hin
    rcases hfd with hfd | hfd
    · exact this.2.1 e he hfd
    · exact this.2.2 e he hfd

theorem update_disposes_iff_witness :
    (update_fold handler_reintroduce).m_dispose_list = [continuable_p] ∧
      (update handler_reintroduce).m_meta = [⟨5, continuable_p, event.write⟩] ∧
      update_disposes handler_reintroduce = [] ∧
      continuable_p ∉ update_disposes handler_reintroduce :=
  ⟨by decide, by decide, by decide,
    (update_disposes_iff handler_reintroduce (by unfold meta_sorted; decide)).2.2
      continuable_p ⟨⟨5, continuable_p, event.write⟩, by decide, Or.inl rfl⟩⟩

/-! ## mailman -/

theorem mailman_send_bs {process_information message : Type}
    [DecidableEq process_information]
    (le : Bool) (serialize : message → Option (List Nat))
    (st : mailman_state process_information) (hbs : st.bs = [])
    (target_peer : process_information) (out_msg : message) (sent1 sent2 : Int) :
    (mailman_send le serialize st target_peer out_msg sent1 sent2).bs = [] := by
  unfold mailman_send
  cases peers_find st.peers target_peer with
  | none => exact hbs
  | some peer =>
    cases serialize out_msg with
    | none => rfl
    | some bytes => rfl

theorem mailman_loop_bs {process_information message : Type}
    [DecidableEq process_information]
    (le : Bool) (serialize : message → Option (List Nat))
    (jobs : List (mailman_job process_information message × Int × Int)) :
    ∀ (st : mailman_state process_information), st.bs = [] →
      (mailman_loop le serialize st jobs).bs = [] := by
  induction jobs with
  | nil => intro st h; exact h
  | cons j rest ih =>
    intro st h
    obtain ⟨job, sent1, sent2⟩ := j
    cases job with
    | send_job t m =>
      simp only [mailman_loop]
      exact ih _ (mailman_send_bs le serialize st h t m sent1 sent2)
    | add_peer fd pinfo =>
      simp only [mailman_loop]
      apply ih
      unfold mailman_add
      cases peers_find st.peers pinfo with
      | none => exact h
      | some _ => exact h
    | kill => exact h

theorem new_request_ids_pending (n : Nat) :
    ∀ (self : local_actor),
      (local_actor.new_request_ids n self).2.m_pending_responses =
        self.m_pending_responses ++
          (local_actor.new_request_ids n self).1.map message_id.response_id := by
  induction n with
  | zero => intro self; simp [local_actor.new_request_ids]
  | succ k ih =>
    intro self
    simp only [local_actor.new_request_ids, List.map_cons]
    rw [ih]
    simp [local_actor.new_request_id]

theorem new_request_ids_length (n : Nat) :
    ∀ (self : local_actor), (local_actor.new_request_ids n self).1.length = n := by
  induction n with
  | zero => intro self; rfl
  | succ k ih =>
    intro self
    simp only [local_actor.new_request_ids, List.length_cons]
    rw [ih]

theorem new_request_ids_increasing (n : Nat) :
    ∀ (self : local_actor), self.m_last_request_id.m_value + n < 2 ^ 64 →
      List.Pairwise (fun a b : message_id => a.m_value < b.m_value)
          (local_actor.new_request_ids n self).1 ∧
        ∀ id ∈ (local_actor.new_request_ids n self).1,
          self.m_last_request_id.m_value < id.m_value := by
  induction n with
  | zero => intro self _; simp [local_actor.new_request_ids]
  | succ k ih =>
    intro self h
    have hv : (self.m_last_request_id.m_value + 1) % 2 ^ 64 =
        self.m_last_request_id.m_value + 1 := Nat.mod_eq_of_lt (by omega)
    have hlast : self.new_request_id.2.m_last_request_id.m_value =
        self.m_last_request_id.m_value + 1 := by
      simp only [local_actor.new_request_id, message_id.incr]
      exact hv
    have hfirst : self.new_request_id.1.m_value = self.m_last_request_id.m_value + 1 := by
      simp only [local_actor.new_request_id, message_id.incr]
      exact hv
    obtain ⟨ih1, ih2⟩ := ih self.new_request_id.2 (by rw [hlast]; omega)
    simp only [local_actor.new_request_ids]
    refine ⟨?_, ?_⟩
    · rw [List.pairwise_cons]
      refine ⟨?_, ih1⟩
      intro b hb
      have := ih2 b hb
      rw [hlast] at this
      rw [hfirst]
      exact this
    · intro id hid
      rcases List.mem_cons.mp hid with hid | hid
      · rw [hid, hfirst]; omega
      · have := ih2 id hid
        rw [hlast] at this
        omega

theorem mark_arrived_last_request_id (self : local_actor) (r : message_id) :
    (self.mark_arrived r).m_last_request_id = self.m_last_request_id := by
  unfold local_actor.mark_arrived
  simp only []
  split <;> rfl

theorem run_request_calls_increasing (calls : List request_call) :
    ∀ (self : local_actor),
      self.m_last_request_id.m_value + (local_actor.run_request_calls calls self).1.length
          < 2 ^ 64 →
      List.Pairwise (fun a b : message_id => a.m_value < b.m_value)
          (local_actor.run_request_calls calls self).1 ∧
        ∀ id ∈ (local_actor.run_request_calls calls self).1,
          self.m_last_request_id.m_value < id.m_value := by
  induction calls with
  | nil => intro self _; simp [local_actor.run_request_calls]
  | cons c rest ih =>
    intro self h
    cases c with
    | new_request_id =>
      simp only [local_actor.run_request_calls, List.length_cons] at h ⊢
      have hv : (self.m_last_request_id.m_value + 1) % 2 ^ 64 =
          self.m_last_request_id.m_value + 1 := Nat.mod_eq_of_lt (by omega)
      have hlast : self.new_request_id.2.m_last_request_id.m_value =
          self.m_last_request_id.m_value + 1 := by
        simp only [local_actor.new_request_id, message_id.incr]
        exact hv
      have hfirst : self.new_request_id.1.m_value = self.m_last_request_id.m_value + 1 := by
        simp only [local_actor.new_request_id, message_id.incr]
        exact hv
      obtain ⟨ih1, ih2⟩ := ih self.new_request_id.2 (by rw [hlast]; omega)
      refine ⟨?_, ?_⟩
      · rw [List.pairwise_cons]
        refine ⟨?_, ih1⟩
        intro b hb
        have := ih2 b hb
        rw [hlast] at this
        rw [hfirst]
        exact this
      · intro id hid
        rcases List.mem_cons.mp hid with hid | hid
        · rw [hid, hfirst]; omega
        · have := ih2 id hid
          rw [hlast] at this
          omega
    | mark_arrived r =>
      simp only [local_actor.run_request_calls] at h ⊢
      have := ih (self.mark_arrived r) (by rw [mark_arrived_last_request_id]; exact h)
      rw [mark_arrived_last_request_id] at this
      exact this

/-- C7: every call of `new_request_id()` appends exactly one element, the
response id of the returned id, at the end of `pending_responses` and leaves
its earlier elements unchanged, so `n` successive calls append the response
ids of the `n` returned ids in the order of the calls; and the returned ids
strictly increase, so each differs from every id returned by an earlier call,
and are greater than the counter before the calls, both for successive calls
and for calls with calls of `mark_arrived` in between. The increase is stated
for the runs in which the 64-bit counter `m_last_request_id`, which starts at
0 and advances by one per call, stays below `2 ^ 64`: the runs of fewer than
`2 ^ 64` calls of `new_request_id()`. -/
theorem new_request_ids_spec (self : local_actor) (n : Nat) :
    (local_actor.new_request_ids n self).2.m_pending_responses =
        self.m_pending_responses ++
          (local_actor.new_request_ids n self).1.map message_id.response_id ∧
      (local_actor.new_request_ids n self).1.length = n ∧
      self.new_request_id.2.m_pending_responses =
        self.m_pending_responses ++ [self.new_request_id.1.response_id] ∧
      (self.m_last_request_id.m_value + n < 2 ^ 64 →
        List.Pairwise (fun a b : message_id => a.m_value < b.m_value)
            (local_actor.new_request_ids n self).1 ∧
          ∀ id ∈ (local_actor.new_request_ids n self).1,
            self.m_last_request_id.m_value < id.m_value) ∧
      (∀ calls : List request_call,
        self.m_last_request_id.m_value +
            (local_actor.run_request_calls calls self).1.length < 2 ^ 64 →
        List.Pairwise (fun a b : message_id => a.m_value < b.m_value)
            (local_actor.run_request_calls calls self).1 ∧
          ∀ id ∈ (local_actor.run_request_calls calls self).1,
            self.m_last_request_id.m_value < id.m_value) :=
  ⟨new_request_ids_pending n self, new_request_ids_length n self, rfl,
    new_request_ids_increasing n self,
    fun calls => run_request_calls_increasing calls self⟩

theorem new_request_ids_spec_witness :
    (local_actor.new_request_ids 3 local_actor.fresh).1 = [⟨1⟩, ⟨2⟩, ⟨3⟩] ∧
      List.Pairwise (fun a b : message_id => a.m_value < b.m_value)
        (local_actor.new_request_ids 3 local_actor.fresh).1 ∧
      (local_actor.run_request_calls
        [request_call.new_request_id, request_call.mark_arrived (message_id.response_id ⟨1⟩),
          request_call.new_request_id, request_call.new_request_id]
        local_actor.fresh).1 = [⟨1⟩, ⟨2⟩, ⟨3⟩] ∧
      (local_actor.run_request_calls
        [request_call.new_request_id, request_call.mark_arrived (message_id.response_id ⟨1⟩),
          request_call.new_request_id, request_call.new_request_id]
        local_actor.fresh).2.m_pending_responses =
          [message_id.response_id ⟨2⟩, message_id.response_id ⟨3⟩] ∧
      List.Pairwise (fun a b : message_id => a.m_value < b.m_value)
        (local_actor.run_request_calls
          [request_call.new_request_id, request_call.mark_arrived (message_id.response_id ⟨1⟩),
            request_call.new_request_id, request_call.new_request_id]
          local_actor.fresh).1 :=
  ⟨by decide, ((new_request_ids_spec local_actor.fresh 3).2.2.2.1 (by decide)).1,
    by decide, by decide,
    ((new_request_ids_spec local_actor.fresh 3).2.2.2.2
      [request_call.new_request_id, request_call.mark_arrived (message_id.response_id ⟨1⟩),
        request_call.new_request_id, request_call.new_request_id] (by decide)).1⟩

/-- C8: `awaits(r)` is true if and only if `r` is an element of
`pending_responses`, in every state of the actor; it is true for the response
id of a request id right after `new_request_id()` has returned that id. -/
theorem awaits_iff_pending (self : local_actor) (r : message_id) :
    (self.awaits r = true ↔ r ∈ self.m_pending_responses) ∧
      self.new_request_id.2.awaits self.new_request_id.1.response_id = true := by
  constructor
  · unfold local_actor.awaits
    rw [List.any_eq_true]
    constructor
    · rintro ⟨x, hx, hr⟩
      have : r = x := by simpa using hr
      rw [this]; exact hx
    · intro h
      exact ⟨r, h, by simp⟩
  · unfold local_actor.awaits
    simp [local_actor.new_request_id]

theorem std_find_not_mem (range : List message_id) (value : message_id)
    (h : value ∉ range) : local_actor.std_find range value = range.length := by
  induction range with
  | nil => rfl
  | cons x rest ih =>
    have hx : x ≠ value := fun e => h (by rw [e]; exact List.mem_cons_self _ _)
    have hr : value ∉ rest := fun e => h (List.mem_cons_of_mem _ e)
    simp only [local_actor.std_find, hx, if_false, List.length_cons, ih hr]

theorem std_find_first (pre post : List message_id) (value : message_id)
    (h : value ∉ pre) :
    local_actor.std_find (pre ++ value :: post) value = pre.length := by
  induction pre with
  | nil => simp [local_actor.std_find]
  | cons x rest ih =>
    have hx : x ≠ value := fun e => h (by rw [e]; exact List.mem_cons_self _ _)
    have hr : value ∉ rest := fun e => h (List.mem_cons_of_mem _ e)
    have hstep : local_actor.std_find (x :: (rest ++ value :: post)) value =
        local_actor.std_find (rest ++ value :: post) value + 1 := by
      simp only [local_actor.std_find, hx, if_false]
    rw [List.cons_append, hstep, ih hr, List.length_cons]

theorem eraseIdx_length_append (pre post : List message_id) (value : message_id) :
    (pre ++ value :: post).eraseIdx pre.length = pre ++ post := by
  induction pre with
  | nil => rfl
  | cons x rest ih => simp only [List.cons_append, List.length_cons, List.eraseIdx_cons_succ, ih]

/-- C9: `mark_arrived(r)` leaves the actor unchanged when `r` is not pending,
and otherwise removes the first occurrence of `r` from `pending_responses`,
keeping the other elements and their order; it changes no other member; from
an empty `pending_responses`, `new_request_id()` followed by `mark_arrived` of
the response id of the returned id leaves `pending_responses` empty. -/
theorem mark_arrived_spec (self : local_actor) (r : message_id) :
    (r ∉ self.m_pending_responses → self.mark_arrived r = self) ∧
      (∀ pre post, self.m_pending_responses = pre ++ r :: post → r ∉ pre →
        self.mark_arrived r = { self with m_pending_responses := pre ++ post }) ∧
      (self.mark_arrived r).m_pending_responses = self.m_pending_responses.erase r ∧
      (self.m_pending_responses = [] →
        (self.new_request_id.2.mark_arrived
          self.new_request_id.1.response_id).m_pending_responses = []) := by
  refine ⟨?_, ?_, ?_, ?_⟩
  · intro h
    unfold local_actor.mark_arrived
    simp [std_find_not_mem _ _ h]
  · intro pre post hp hpre
    unfold local_actor.mark_arrived
    simp only [hp, std_find_first pre post r hpre, eraseIdx_length_append]
    simp
  · by_cases h : r ∈ self.m_pending_responses
    · obtain ⟨pre, post, hp, hpre⟩ := List.eq_append_cons_of_mem h
      unfold local_actor.mark_arrived
      simp only [hp, std_find_first pre post r hpre, eraseIdx_length_append]
      rw [List.erase_append_right _ hpre]
      simp
    · unfold local_actor.mark_arrived
      simp [std_find_not_mem _ _ h, List.erase_of_not_mem h]
  · intro hempty
    unfold local_actor.mark_arrived
    simp [local_actor.new_request_id, hempty, local_actor.std_find]

theorem mark_arrived_spec_witness :
    (local_actor.fresh.new_request_id.2.mark_arrived
      local_actor.fresh.new_request_id.1.response_id).m_pending_responses = [] :=
  (mark_arrived_spec local_actor.fresh ⟨0⟩).2.2.2 rfl

/-- C10: `handle_sync_timeout()` invokes the sync-timeout handler and makes no
other call when one is installed, and calls
`quit(exit_reason::unhandled_sync_timeout)` when none is installed;
`handle_sync_failure()` does the same with the sync-failure handler and
`exit_reason::unhandled_sync_failure`. A handler is installed by
`on_sync_timeout` or `on_sync_failure` respectively. -/
theorem handle_sync_timeout_failure (er : exit_reason) (self : local_actor) :
    (∀ h, self.m_sync_timeout_handler = some h →
        (local_actor.handle_sync_timeout er self).calls =
          self.calls ++ [actor_call.invoke h]) ∧
      (self.m_sync_timeout_handler = none →
        (local_actor.handle_sync_timeout er self).calls =
          self.calls ++ [actor_call.quit er.unhandled_sync_timeout]) ∧
      (∀ h, self.m_sync_failure_handler = some h →
        (local_actor.handle_sync_failure er self).calls =
          self.calls ++ [actor_call.invoke h]) ∧
      (self.m_sync_failure_handler = none →
        (local_actor.handle_sync_failure er self).calls =
          self.calls ++ [actor_call.quit er.unhandled_sync_failure]) ∧
      (∀ h, (local_actor.handle_sync_timeout er (self.on_sync_timeout (some h))).calls =
        self.calls ++ [actor_call.invoke h]) ∧
      (∀ h, (local_actor.handle_sync_failure er (self.on_sync_failure (some h))).calls =
        self.calls ++ [actor_call.invoke h]) := by
  refine ⟨?_, ?_, ?_, ?_, ?_, ?_⟩
  · intro h hh
    simp [local_actor.handle_sync_timeout, hh]
  · intro hh
    simp [local_actor.handle_sync_timeout, hh]
  · intro h hh
    simp [local_actor.handle_sync_failure, hh]
  · intro hh
    simp [local_actor.handle_sync_failure, hh]
  · intro h; rfl
  · intro h; rfl

theorem handle_sync_timeout_failure_witness :
    (local_actor.handle_sync_timeout ⟨4, 5⟩ local_actor.fresh).calls =
        local_actor.fresh.calls ++ [actor_call.quit 5] ∧
      (local_actor.handle_sync_failure ⟨4, 5⟩ local_actor.fresh).calls =
        local_actor.fresh.calls ++ [actor_call.quit 4] :=
  ⟨(handle_sync_timeout_failure ⟨4, 5⟩ local_actor.fresh).2.1 rfl,
    (handle_sync_timeout_failure ⟨4, 5⟩ local_actor.fresh).2.2.2.1 rfl⟩

/-- C11, counterexample: after `on_sync_timeout(f)` alone, an unexpected
synchronous response (`handle_sync_failure`) does not invoke `f` but calls
`quit(exit_reason::unhandled_sync_failure)`; after `on_sync_failure(g)` alone,
a sync timeout (`handle_sync_timeout`) does not invoke `g` but calls
`quit(exit_reason::unhandled_sync_timeout)`. -/
theorem on_sync_timeout_not_failure_handler :
    (local_actor.handle_sync_failure ⟨4, 5⟩
        (local_actor.fresh.on_sync_timeout (some 7))).calls = [actor_call.quit 4] ∧
      (local_actor.handle_sync_timeout ⟨4, 5⟩
        (local_actor.fresh.on_sync_failure (some 8))).calls = [actor_call.quit 5] := by
  refine ⟨by decide, by decide⟩

/-- C11, amended: `on_sync_timeout(f)` sets the handler for sync timeouts and
`on_sync_failure(g)` the handler for unexpected synchronous responses: after
`on_sync_timeout(f)`, `handle_sync_timeout` invokes `f`, and after
`on_sync_failure(g)`, `handle_sync_failure` invokes `g`; `on_sync_timeout`
does not change what `handle_sync_failure` does, nor `on_sync_failure` what
`handle_sync_timeout` does. -/
theorem on_sync_handlers_spec (er : exit_reason) (self : local_actor) (f g : Nat) :
    (local_actor.handle_sync_timeout er (self.on_sync_timeout (some f))).calls =
        self.calls ++ [actor_call.invoke f] ∧
      (local_actor.handle_sync_failure er (self.on_sync_failure (some g))).calls =
        self.calls ++ [actor_call.invoke g] ∧
      (local_actor.handle_sync_failure er (self.on_sync_timeout (some f))).calls =
        (local_actor.handle_sync_failure er self).calls ∧
      (local_actor.handle_sync_timeout er (self.on_sync_failure (some g))).calls =
        (local_actor.handle_sync_timeout er self).calls := by
  refine ⟨rfl, rfl, ?_, ?_⟩
  · unfold local_actor.handle_sync_failure local_actor.on_sync_timeout
    cases self.m_sync_failure_handler <;> rfl
  · unfold local_actor.handle_sync_timeout local_actor.on_sync_failure
    cases self.m_sync_timeout_handler <;> rfl

theorem response_id_is_response (m : message_id) :
    m.response_id.is_response = true ∧ m.response_id ≠ message_id.invalid := by
  have hbit : (m.m_value ||| 2 ^ 63).testBit 63 = true := by
    rw [Nat.testBit_or, Nat.testBit_two_pow_self]
    simp
  constructor
  · simp only [message_id.is_response, message_id.response_id,
      message_id.response_flag_mask, decide_eq_true_eq]
    intro h0
    have h1 : ((m.m_value ||| 2 ^ 63) &&& 2 ^ 63).testBit 63 = true := by
      rw [Nat.testBit_and, hbit, Nat.testBit_two_pow_self]
      rfl
    rw [h0] at h1
    simp at h1
  · intro h
    simp only [message_id.response_id, message_id.response_flag_mask,
      message_id.invalid, message_id.mk.injEq] at h
    rw [h] at hbit
    simp at hbit

/-- C12, counterexample: when the message under processing is a synchronous
request message (id 1), `get_response_id()` returns the response id generated
from it and not the zero id; when it is a response message (id 1 with the
response flag), `get_response_id()` returns the zero id. -/
theorem get_response_id_of_request_not_zero :
    (message_id.mk 1).is_request = true ∧
      ({ local_actor.fresh with m_current_node_mid := ⟨1⟩ } : local_actor).get_response_id =
        ⟨1 + 2 ^ 63⟩ ∧
      ({ local_actor.fresh with m_current_node_mid := ⟨1⟩ } : local_actor).get_response_id ≠
        message_id.invalid ∧
      (message_id.mk (1 + 2 ^ 63)).is_request = false ∧
      ({ local_actor.fresh with m_current_node_mid := ⟨1 + 2 ^ 63⟩ } :
        local_actor).get_response_id = message_id.invalid := by
  refine ⟨by decide, by decide, by decide, by decide, by decide⟩

/-- C12, amended: `get_response_id()` returns the response id generated from
the id of the message under processing when that message is a synchronous
request message, and the zero (invalid) message id otherwise, that is for an
asynchronous message and for a response message. -/
theorem get_response_id_spec (self : local_actor) :
    (self.m_current_node_mid.is_request = true →
        self.get_response_id = self.m_current_node_mid.response_id ∧
        self.get_response_id.is_response = true ∧
        self.get_response_id ≠ message_id.invalid) ∧
      (self.m_current_node_mid.is_request = false →
        self.get_response_id = message_id.invalid) ∧
      (self.m_current_node_mid = message_id.invalid →
        self.get_response_id = message_id.invalid) ∧
      (self.m_current_node_mid.is_response = true →
        self.get_response_id = message_id.invalid) := by
  refine ⟨?_, ?_, ?_, ?_⟩
  · intro h
    have hg : self.get_response_id = self.m_current_node_mid.response_id := by
      simp [local_actor.get_response_id, h]
    rw [hg]
    exact ⟨rfl, response_id_is_response _⟩
  · intro h
    simp [local_actor.get_response_id, h]
  · intro h
    simp only [local_actor.get_response_id, h]
    rfl
  · intro h
    simp [local_actor.get_response_id, message_id.is_request, h]

theorem get_response_id_spec_witness :
    ({ local_actor.fresh with m_current_node_mid := ⟨1⟩ } : local_actor).get_response_id =
        (message_id.mk 1).response_id ∧
      local_actor.fresh.get_response_id = message_id.invalid :=
  ⟨((get_response_id_spec { local_actor.fresh with m_current_node_mid := ⟨1⟩ }).1
      (by decide)).1,
    (get_response_id_spec local_actor.fresh).2.2.1 rfl⟩

/-! ## limited_vector -/

theorem std_copy_length {T : Type} (src : List T) :
    ∀ (data : List T) (d : Nat), (util.std_copy src data d).length = data.length := by
  induction src with
  | nil => intro data d; rfl
  | cons x rest ih =>
    intro data d
    simp only [util.std_copy]
    rw [ih, List.length_set]

theorem std_copy_getElem? {T : Type} (src : List T) :
    ∀ (data : List T) (d j : Nat),
      (util.std_copy src data d)[j]? =
        if d ≤ j ∧ j < d + src.length ∧ j < data.length then src[j - d]? else data[j]? := by
  induction src with
  | nil =>
    intro data d j
    simp only [util.std_copy, List.length_nil, Nat.add_zero]
    split
    · omega
    · rfl
  | cons x rest ih =>
    intro data d j
    simp only [util.std_copy]
    rw [ih, List.length_set, List.getElem?_set, List.length_cons]
    by_cases h1 : d + 1 ≤ j ∧ j < d + 1 + rest.length ∧ j < data.length
    · have h2 : d ≤ j ∧ j < d + (rest.length + 1) ∧ j < data.length := by omega
      rw [if_pos h1, if_pos h2]
      have h3 : j - d = (j - (d + 1)) + 1 := by omega
      rw [h3, List.getElem?_cons_succ]
    · rw [if_neg h1]
      by_cases h4 : d = j
      · subst h4
        by_cases h5 : d < data.length
        · have h2 : d ≤ d ∧ d < d + (rest.length + 1) ∧ d < data.length := by omega
          rw [if_pos rfl, if_pos h5, if_pos h2]
          simp
        · have h2 : ¬ (d ≤ d ∧ d < d + (rest.length + 1) ∧ d < data.length) := by omega
          rw [if_pos rfl, if_neg h5, if_neg h2]
          rw [List.getElem?_eq_none (by omega)]
      · have h2 : ¬ (d ≤ j ∧ j < d + (rest.length + 1) ∧ j < data.length) := by omega
        rw [if_neg h4, if_neg h2]

theorem std_copy_backward_length {T : Type} (count : Nat) :
    ∀ (data : List T) (last d_last : Nat),
      (util.std_copy_backward count data last d_last).length = data.length := by
  induction count with
  | zero => intro data last d_last; rfl
  | succ c ih =>
    intro data last d_last
    simp only [util.std_copy_backward]
    cases data[last - 1]? with
    | none => rfl
    | some x => simp only; rw [ih, List.length_set]

theorem std_copy_backward_getElem? {T : Type} (count : Nat) :
    ∀ (data : List T) (last d_last j : Nat), count ≤ last → last ≤ d_last →
      d_last ≤ data.length →
      (util.std_copy_backward count data last d_last)[j]? =
        if d_last - count ≤ j ∧ j < d_last then data[j - (d_last - last)]? else data[j]? := by
  induction count with
  | zero =>
    intro data last d_last j _ _ _
    simp only [util.std_copy_backward, Nat.sub_zero]
    split
    · omega
    · rfl
  | succ c ih =>
    intro data last d_last j h1 h2 h3
    simp only [util.std_copy_backward]
    have hlast : last - 1 < data.length := by omega
    rw [List.getElem?_eq_getElem hlast]
    simp only
    rw [ih _ _ _ _ (by omega) (by omega) (by rw [List.length_set]; omega)]
    have hshift : d_last - 1 - (last - 1) = d_last - last := by omega
    rw [hshift]
    by_cases h4 : d_last - 1 - c ≤ j ∧ j < d_last - 1
    · have h5 : d_last - (c + 1) ≤ j ∧ j < d_last := by omega
      rw [if_pos h4, if_pos h5, List.getElem?_set_ne (by omega)]
    · rw [if_neg h4]
      by_cases h6 : j = d_last - 1
      · have h5 : d_last - (c + 1) ≤ j ∧ j < d_last := by omega
        rw [if_pos h5, h6, List.getElem?_set_self (by omega)]
        have h7 : d_last - 1 - (d_last - last) = last - 1 := by omega
        rw [h7, List.getElem?_eq_getElem hlast]
      · have h5 : ¬ (d_last - (c + 1) ≤ j ∧ j < d_last) := by omega
        rw [if_neg h5, List.getElem?_set_ne (by omega)]

theorem array_size_ge (MaxSize : Nat) : MaxSize ≤ util.limited_vector.array_size MaxSize := by
  unfold util.limited_vector.array_size
  split <;> omega

/-- C13: `insert(pos, first, last)` throws `std::length_error` if and only if
`size() + distance(first, last) > MaxSize`, and when it throws, the size and
the elements of the vector are unchanged. The vector has at most `MaxSize`
elements; `MaxSize` and the distance are below `2 ^ 63`, the largest array and
the largest `ptrdiff_t`. -/
theorem limited_vector_insert_throws {T : Type} {MaxSize : Nat}
    (self : util.limited_vector T MaxSize) (pos : Nat) (range : List T)
    (hmax : MaxSize < 2 ^ 63) (hsize : self.size ≤ MaxSize)
    (hrange : range.length < 2 ^ 63) :
    ((self.insert pos range).1 = some "limited_vector::insert: too much elements" ↔
        self.size + range.length > MaxSize) ∧
      ((self.insert pos range).1 = none ↔ self.size + range.length ≤ MaxSize) ∧
      (self.size + range.length > MaxSize → (self.insert pos range).2 = self) := by
  have hmod : (self.size + range.length) % 2 ^ 64 = self.size + range.length :=
    Nat.mod_eq_of_lt (by omega)
  unfold util.limited_vector.insert
  simp only [hmod]
  by_cases h : self.size + range.length > MaxSize
  · simp [h]
  · simp only [h, if_false]
    have hle : self.size + range.length ≤ MaxSize := by omega
    split <;> simp [hle]

theorem limited_vector_insert_throws_witness :
    ((⟨3, [1, 2, 3, 0]⟩ : util.limited_vector Nat 4).insert 1 [7, 8]).1 =
        some "limited_vector::insert: too much elements" ∧
      ((⟨3, [1, 2, 3, 0]⟩ : util.limited_vector Nat 4).insert 1 [7, 8]).2 =
        ⟨3, [1, 2, 3, 0]⟩ :=
  ⟨(limited_vector_insert_throws (⟨3, [1, 2, 3, 0]⟩ : util.limited_vector Nat 4) 1 [7, 8]
      (by norm_num) (by decide) (by decide)).1.mpr (by decide),
    (limited_vector_insert_throws (⟨3, [1, 2, 3, 0]⟩ : util.limited_vector Nat 4) 1 [7, 8]
      (by norm_num) (by decide) (by decide)).2.2 (by decide)⟩

theorem insert_spec_getElem? {T : Type} (data r : List T) (n i j : Nat)
    (hi : i ≤ n) (hn : n ≤ data.length) :
    ((data.take n).take i ++ r ++ (data.take n).drop i)[j]? =
      if j < i then data[j]?
      else if j < i + r.length then r[j - i]?
      else if j < n + r.length then data[j - r.length]?
      else none := by
  have hA : ((data.take n).take i).length = i := by
    rw [List.length_take, List.length_take]; omega
  rw [List.getElem?_append, List.getElem?_append, List.length_append]
  simp only [hA, List.getElem?_drop, List.getElem?_take]
  by_cases h1 : j < i
  · have h2 : j < i + r.length := by omega
    have h3 : j < n := by omega
    simp only [h1, h2, h3, if_true]
  · by_cases h2 : j < i + r.length
    · simp only [h1, h2, if_true, if_false]
    · have h4 : i + (j - (i + r.length)) = j - r.length := by omega
      by_cases h3 : j < n + r.length
      · have h5 : j - r.length < n := by omega
        simp only [h1, h2, h3, h4, h5, if_true, if_false]
      · have h5 : ¬ (j - r.length < n) := by omega
        simp only [h1, h2, h3, h4, h5, if_false]

/-- C14: for a vector with the elements `e[0..n)`, a position `i <= n` and a
range `r` of `k` elements outside the vector with `n + k <= MaxSize`,
`insert(begin() + i, r)` throws nothing and leaves a vector of size `n + k`
whose elements are `e[0..i)`, then `r`, then `e[i..n)`. -/
theorem limited_vector_insert_elements {T : Type} {MaxSize : Nat}
    (self : util.limited_vector T MaxSize) (pos : Nat) (range : List T)
    (hmax : MaxSize < 2 ^ 64)
    (harr : self.m_data.length = util.limited_vector.array_size MaxSize)
    (hpos : pos ≤ self.size) (hfit : self.size + range.length ≤ MaxSize) :
    (self.insert pos range).1 = none ∧
      (self.insert pos range).2.size = self.size + range.length ∧
      (self.insert pos range).2.elements =
        self.elements.take pos ++ range ++ self.elements.drop pos := by
  have hsz : self.size = self.m_size := rfl
  rw [hsz] at hpos hfit
  have hmod : (self.m_size + range.length) % 2 ^ 64 = self.m_size + range.length :=
    Nat.mod_eq_of_lt (by omega)
  have hlen : self.m_size + range.length ≤ self.m_data.length := by
    have := array_size_ge MaxSize
    omega
  have hnot : ¬ (self.m_size + range.length > MaxSize) := by omega
  have hins : self.insert pos range =
      if pos = self.m_size then
        (none, ⟨self.m_size + range.length, util.std_copy range self.m_data pos⟩)
      else
        (none, ⟨self.m_size + range.length,
          util.std_copy range
            (util.std_copy_backward (self.m_size - pos) self.m_data self.m_size
              (self.m_size + range.length)) pos⟩) := by
    simp only [util.limited_vector.insert, util.limited_vector.size,
      util.limited_vector.resize, hmod, hnot, if_false]
  rw [hins, hsz]
  by_cases hend : pos = self.m_size
  · rw [if_pos hend]
    refine ⟨rfl, rfl, ?_⟩
    show List.take (self.m_size + range.length) (util.std_copy range self.m_data pos) =
      (self.m_data.take self.m_size).take pos ++ range ++ (self.m_data.take self.m_size).drop pos
    apply List.ext_getElem?
    intro j
    rw [insert_spec_getElem? _ _ _ _ _ hpos (by omega), List.getElem?_take,
      std_copy_getElem?]
    by_cases h1 : j < pos
    · have h2 : j < self.m_size + range.length := by omega
      have h3 : ¬ (pos ≤ j ∧ j < pos + range.length ∧ j < self.m_data.length) := by omega
      simp only [h1, h2, h3, if_true, if_false]
    · by_cases h2 : j < pos + range.length
      · have h3 : pos ≤ j ∧ j < pos + range.length ∧ j < self.m_data.length := by omega
        have h4 : j < self.m_size + range.length := by omega
        simp only [h1, h2, h3, h4, and_self, if_true, if_false]
      · have h4 : ¬ (j < self.m_size + range.length) := by omega
        simp only [h1, h2, h4, if_false]
  · rw [if_neg hend]
    refine ⟨rfl, rfl, ?_⟩
    show List.take (self.m_size + range.length)
        (util.std_copy range
          (util.std_copy_backward (self.m_size - pos) self.m_data self.m_size
            (self.m_size + range.length)) pos) =
      (self.m_data.take self.m_size).take pos ++ range ++ (self.m_data.take self.m_size).drop pos
    apply List.ext_getElem?
    intro j
    rw [insert_spec_getElem? _ _ _ _ _ hpos (by omega), List.getElem?_take,
      std_copy_getElem?, std_copy_backward_length,
      std_copy_backward_getElem? _ _ _ _ _ (by omega) (by omega) hlen]
    have hshift : self.m_size + range.length - self.m_size = range.length := by omega
    rw [hshift]
    by_cases h1 : j < pos
    · have h2 : j < self.m_size + range.length := by omega
      have h3 : ¬ (pos ≤ j ∧ j < pos + range.length ∧ j < self.m_data.length) := by omega
      have h4 : ¬ (self.m_size + range.length - (self.m_size - pos) ≤ j) := by omega
      simp only [h1, h2, h3, h4, false_and, if_true, if_false]
    · by_cases h2 : j < pos + range.length
      · have h3 : pos ≤ j ∧ j < pos + range.length ∧ j < self.m_data.length := by omega
        have h4 : j < self.m_size + range.length := by omega
        simp only [h1, h2, h3, h4, and_self, if_true, if_false]
      · have h3 : ¬ (pos ≤ j ∧ j < pos + range.length ∧ j < self.m_data.length) := by omega
        by_cases h4 : j < self.m_size + range.length
        · have h5 : self.m_size + range.length - (self.m_size - pos) ≤ j := by omega
          simp only [h1, h2, h4, h5, and_self, false_and, and_false, if_true, if_false]
        · simp only [h1, h2, h4, if_false]

theorem limited_vector_insert_elements_witness :
    ((⟨3, [1, 2, 3, 0, 0, 0]⟩ : util.limited_vector Nat 6).insert 1 [7, 8]).2.elements =
      [1, 7, 8, 2, 3] :=
  (limited_vector_insert_elements (⟨3, [1, 2, 3, 0, 0, 0]⟩ : util.limited_vector Nat 6) 1 [7, 8]
    (by norm_num) (by decide) (by decide) (by decide)).2.2

/-- C15, at the failing input: the constructor `limited_vector(size_t)` of a
`limited_vector<T, 2>` called with the initial size 3 produces a vector whose
`size()` is 3 and exceeds `max_size()`, which is 2. -/
theorem limited_vector_size_ctor_exceeds :
    (util.limited_vector.size_ctor [7, 7] 3 : util.limited_vector Nat 2).size = 3 ∧
      (util.limited_vector.size_ctor [7, 7] 3 : util.limited_vector Nat 2).max_size = 2 ∧
      ¬ ((util.limited_vector.size_ctor [7, 7] 3 : util.limited_vector Nat 2).size ≤
        (util.limited_vector.size_ctor [7, 7] 3 : util.limited_vector Nat 2).max_size) := by
  refine ⟨by decide, by decide, by decide⟩

theorem limited_vector_size_le {T : Type} [Zero T] {MaxSize : Nat}
    (self other : util.limited_vector T MaxSize) (array init range : List T)
    (s count pos initial_size : Nat) (value what : T) (hmax : MaxSize < 2 ^ 63) :
    (util.limited_vector.default_ctor array : util.limited_vector T MaxSize).size ≤ MaxSize ∧
      (initial_size ≤ MaxSize →
        (util.limited_vector.size_ctor array initial_size :
          util.limited_vector T MaxSize).size ≤ MaxSize) ∧
      (init.length ≤ MaxSize →
        (util.limited_vector.init_ctor array init :
          util.limited_vector T MaxSize).size ≤ MaxSize) ∧
      (other.size ≤ MaxSize → (util.limited_vector.copy_ctor array other).size ≤ MaxSize) ∧
      (other.size ≤ MaxSize → (self.copy_assign other).size ≤ MaxSize) ∧
      (s ≤ MaxSize → (self.resize s).size ≤ MaxSize) ∧
      (count ≤ MaxSize → (self.assign count value).size ≤ MaxSize) ∧
      (range.length ≤ MaxSize → (self.assign_range range).size ≤ MaxSize) ∧
      (self.size ≤ MaxSize → self.full = false → (self.push_back what).size ≤ MaxSize) ∧
      (self.size ≤ MaxSize → self.empty = false → (self.pop_back).size ≤ MaxSize) ∧
      self.clear.size ≤ MaxSize ∧
      (self.size ≤ MaxSize → range.length < 2 ^ 63 →
        (self.insert pos range).2.size ≤ MaxSize) := by
  have hp : (2 : Nat) ^ 63 < 2 ^ 64 := by norm_num
  refine ⟨?_, ?_, ?_, ?_, ?_, ?_, ?_, ?_, ?_, ?_, ?_, ?_⟩
  · exact Nat.zero_le _
  · intro h; exact h
  · intro h; exact h
  · intro h; exact h
  · intro h; exact h
  · intro h; exact h
  · intro h; exact h
  · intro h; exact h
  · intro h hf
    have hne : self.m_size ≠ MaxSize := by
      simpa [util.limited_vector.full] using hf
    have hs : self.m_size ≤ MaxSize := h
    have hlt : self.m_size + 1 < 2 ^ 64 := by omega
    show (self.m_size + 1) % 2 ^ 64 ≤ MaxSize
    rw [Nat.mod_eq_of_lt hlt]
    omega
  · intro h he
    have hne : self.m_size ≠ 0 := by
      simpa [util.limited_vector.empty] using he
    have hs : self.m_size ≤ MaxSize := h
    show (if self.m_size = 0 then 2 ^ 64 - 1 else self.m_size - 1) ≤ MaxSize
    rw [if_neg hne]
    omega
  · exact Nat.zero_le _
  · intro h hr
    have hs : self.m_size ≤ MaxSize := h
    have hlt : self.m_size + range.length < 2 ^ 64 := by omega
    have hmod : (self.m_size + range.length) % 2 ^ 64 = self.m_size + range.length :=
      Nat.mod_eq_of_lt hlt
    have hins : (self.insert pos range).2.size =
        if self.m_size + range.length > MaxSize then self.m_size
        else self.m_size + range.length := by
      simp only [util.limited_vector.insert, util.limited_vector.size,
        util.limited_vector.resize, hmod]
      by_cases hgt : self.m_size + range.length > MaxSize
      · simp only [hgt, if_true]
      · simp only [hgt, if_false]
        split <;> rfl
    rw [hins]
    split <;> omega

/-! ## host ids from strings -/

theorem char_mem_of_toNat (c : Char) (lo n : Nat) (h1 : lo ≤ c.toNat) (h2 : c.toNat < lo + n) :
    c ∈ (List.range' lo n).map Char.ofNat := by
  rw [List.mem_map]
  exact ⟨c.toNat, List.mem_range'_1.mpr ⟨h1, h2⟩, Char.ofNat_toNat c⟩

theorem isDigit_iff (c : Char) : c.isDigit = true ↔ 48 ≤ c.toNat ∧ c.toNat ≤ 57 := by
  unfold Char.isDigit
  simp only [Bool.and_eq_true, decide_eq_true_eq, ge_iff_le]
  rfl

theorem hex_chars_split :
    "0123456789abcdefABCDEF".data =
      (List.range' 48 10).map Char.ofNat ++
        ((List.range' 97 6).map Char.ofNat ++ (List.range' 65 6).map Char.ofNat) := by
  decide

theorem hex_char_value_ok_is_hex (c : Char) (v : Nat) (h : hex_char_value c = Except.ok v) :
    is_hex_char c := by
  unfold hex_char_value at h
  unfold is_hex_char
  rw [hex_chars_split]
  split at h
  · rename_i hd
    rw [isDigit_iff] at hd
    exact List.mem_append_left _ (char_mem_of_toNat c 48 10 hd.1 (by omega))
  · split at h
    · split at h
      · rename_i ha
        have h1 : 97 ≤ c.toNat := ha.1
        have h3 : c.toNat ≤ 102 := ha.2
        exact List.mem_append_right _
          (List.mem_append_left _ (char_mem_of_toNat c 97 6 h1 (by omega)))
      · split at h
        · rename_i hA
          have h1 : 65 ≤ c.toNat := hA.1
          have h3 : c.toNat ≤ 70 := hA.2
          exact List.mem_append_right _
            (List.mem_append_right _ (char_mem_of_toNat c 65 6 h1 (by omega)))
        · exact Except.noConfusion h
    · exact Except.noConfusion h

theorem hex_char_value_table :
    ∀ c ∈ "0123456789abcdefABCDEF".data,
      (match hex_char_value c with
        | Except.ok v =>
          decide (v = hex_digit_value c ∧ v < 16 ∧ hex_digit v = c.toLower)
        | Except.error _ => false) = true := by
  decide

theorem hex_char_value_of_hex (c : Char) (h : is_hex_char c) :
    hex_char_value c = Except.ok (hex_digit_value c) ∧ hex_digit_value c < 16 ∧
      hex_digit (hex_digit_value c) = c.toLower := by
  have ht := hex_char_value_table c h
  cases hv : hex_char_value c with
  | error e => rw [hv] at ht; simp at ht
  | ok v =>
    rw [hv] at ht
    simp only [decide_eq_true_eq] at ht
    obtain ⟨h1, h2, h3⟩ := ht
    rw [← h1]
    exact ⟨rfl, h2, h3⟩

theorem hex_char_value_of_not_hex (c : Char) (h : ¬ is_hex_char c) :
    ∃ e, hex_char_value c = Except.error e := by
  cases hv : hex_char_value c with
  | error e => exact ⟨e, rfl⟩
  | ok v => exact absurd (hex_char_value_ok_is_hex c v hv) h

theorem byte_of_nibbles (high low : Nat) (hh : high < 16) (hl : low < 16) :
    ((high <<< 4) % 256 ||| low) % 256 = 16 * high + low := by
  interval_cases high <;> interval_cases low <;> rfl

theorem std_copy_full {T : Type} (src data : List T) (h : src.length = data.length) :
    util.std_copy src data 0 = src := by
  apply List.ext_getElem?
  intro j
  rw [std_copy_getElem?]
  by_cases hj : j < data.length
  · have h1 : 0 ≤ j ∧ j < 0 + src.length ∧ j < data.length := by omega
    rw [if_pos h1, Nat.sub_zero]
  · have h1 : ¬ (0 ≤ j ∧ j < 0 + src.length ∧ j < data.length) := by omega
    rw [if_neg h1, List.getElem?_eq_none (by omega), List.getElem?_eq_none (by omega)]

theorem hex_bytes_length (n : Nat) :
    ∀ (cs : List Char), cs.length = 2 * n → (hex_bytes cs).length = n := by
  induction n with
  | zero =>
    intro cs h
    have : cs = [] := List.length_eq_zero.mp (by omega)
    rw [this]; rfl
  | succ k ih =>
    intro cs h
    match cs, h with
    | c1 :: c2 :: rest, h =>
      simp only [hex_bytes, List.length_cons]
      rw [ih rest (by simp only [List.length_cons] at h; omega)]

theorem host_id_from_string_loop_ok (n : Nat) :
    ∀ (cs : List Char) (i : Nat) (node_id : List Nat), cs.length = 2 * n →
      (∀ c ∈ cs, is_hex_char c) →
      host_id_from_string_loop n cs i node_id =
        (none, util.std_copy (hex_bytes cs) node_id i) := by
  induction n with
  | zero =>
    intro cs i node_id h _
    have : cs = [] := List.length_eq_zero.mp (by omega)
    rw [this]; rfl
  | succ k ih =>
    intro cs i node_id h hall
    match cs, h, hall with
    | c1 :: c2 :: rest, h, hall =>
      obtain ⟨e1, v1, _⟩ := hex_char_value_of_hex c1 (hall c1 (by simp))
      obtain ⟨e2, v2, _⟩ := hex_char_value_of_hex c2 (hall c2 (by simp))
      simp only [host_id_from_string_loop, e1, e2, List.set_set, hex_bytes, util.std_copy]
      rw [byte_of_nibbles _ _ v1 v2]
      exact ih rest (i + 1) _ (by simp only [List.length_cons] at h; omega)
        (fun c hc => hall c (by simp [hc]))

theorem host_id_from_string_loop_throws (n : Nat) :
    ∀ (cs : List Char) (i : Nat) (node_id : List Nat), cs.length = 2 * n →
      (∃ c ∈ cs, ¬ is_hex_char c) →
      ∃ e, (host_id_from_string_loop n cs i node_id).1 = some e := by
  induction n with
  | zero =>
    intro cs i node_id h hex
    have : cs = [] := List.length_eq_zero.mp (by omega)
    rw [this] at hex
    obtain ⟨c, hc, _⟩ := hex
    simp at hc
  | succ k ih =>
    intro cs i node_id h hex
    match cs, h, hex with
    | c1 :: c2 :: rest, h, hex =>
      by_cases h1 : is_hex_char c1
      · obtain ⟨e1, _, _⟩ := hex_char_value_of_hex c1 h1
        by_cases h2 : is_hex_char c2
        · obtain ⟨e2, _, _⟩ := hex_char_value_of_hex c2 h2
          simp only [host_id_from_string_loop, e1, e2]
          apply ih rest (i + 1) _ (by simp only [List.length_cons] at h; omega)
          obtain ⟨c, hc, hn⟩ := hex
          simp only [List.mem_cons] at hc
          rcases hc with hc | hc | hc
          · rw [hc] at hn; exact absurd h1 hn
          · rw [hc] at hn; exact absurd h2 hn
          · exact ⟨c, hc, hn⟩
        · obtain ⟨e, he⟩ := hex_char_value_of_not_hex c2 h2
          simp only [host_id_from_string_loop, e1, he]
          exact ⟨e, rfl⟩
      · obtain ⟨e, he⟩ := hex_char_value_of_not_hex c1 h1
        simp only [host_id_from_string_loop, he]
        exact ⟨e, rfl⟩

theorem hex_digit_is_hex (v : Nat) (hv : v < 16) :
    is_hex_char (hex_digit v) ∧ hex_digit_value (hex_digit v) = v := by
  unfold is_hex_char
  interval_cases v <;> decide

theorem hex_bytes_of_pairs :
    ∀ (bytes : List Nat), (∀ b ∈ bytes, b < 256) →
      hex_bytes (bytes.flatMap (fun b => [hex_digit (b / 16), hex_digit (b % 16)])) = bytes ∧
      ∀ c ∈ bytes.flatMap (fun b => [hex_digit (b / 16), hex_digit (b % 16)]),
        is_hex_char c := by
  intro bytes
  induction bytes with
  | nil => intro _; exact ⟨rfl, by simp⟩
  | cons b rest ih =>
    intro h
    have hb := h b (List.mem_cons_self _ _)
    obtain ⟨ih1, ih2⟩ := ih (fun x hx => h x (List.mem_cons_of_mem _ hx))
    obtain ⟨m1, v1⟩ := hex_digit_is_hex (b / 16) (by omega)
    obtain ⟨m2, v2⟩ := hex_digit_is_hex (b % 16) (by omega)
    constructor
    · simp only [List.flatMap_cons, List.cons_append, List.nil_append, hex_bytes, v1, v2, ih1]
      congr 1
      omega
    · intro c hc
      simp only [List.flatMap_cons, List.cons_append, List.nil_append, List.mem_cons] at hc
      rcases hc with hc | hc | hc
      · rw [hc]; exact m1
      · rw [hc]; exact m2
      · exact ih2 c hc

theorem to_string_of_hex_bytes (n : Nat) :
    ∀ (cs : List Char), cs.length = 2 * n → (∀ c ∈ cs, is_hex_char c) →
      to_string_host_id_loop (hex_bytes cs) = cs.map Char.toLower ∧
      ∀ b ∈ hex_bytes cs, b < 256 := by
  induction n with
  | zero =>
    intro cs h _
    have : cs = [] := List.length_eq_zero.mp (by omega)
    rw [this]
    exact ⟨rfl, by simp [hex_bytes]⟩
  | succ k ih =>
    intro cs h hall
    match cs, h, hall with
    | c1 :: c2 :: rest, h, hall =>
      obtain ⟨_, v1, l1⟩ := hex_char_value_of_hex c1 (hall c1 (by simp))
      obtain ⟨_, v2, l2⟩ := hex_char_value_of_hex c2 (hall c2 (by simp))
      obtain ⟨ih1, ih2⟩ := ih rest (by simp only [List.length_cons] at h; omega)
        (fun c hc => hall c (by simp [hc]))
      have hb : 16 * hex_digit_value c1 + hex_digit_value c2 < 256 := by omega
      have hd : (16 * hex_digit_value c1 + hex_digit_value c2) / 16 = hex_digit_value c1 := by
        omega
      have hm : (16 * hex_digit_value c1 + hex_digit_value c2) % 16 = hex_digit_value c2 := by
        omega
      constructor
      · simp only [hex_bytes, to_string_host_id_loop, List.map_cons]
        rw [ostream_put_hex_byte _ hb, hd, hm, l1, l2, ih1]
        rfl
      · intro b hbm
        simp only [hex_bytes, List.mem_cons] at hbm
        rcases hbm with hbm | hbm
        · rw [hbm]; exact hb
        · exact ih2 b hbm

theorem hex_bytes_getElem? (n : Nat) :
    ∀ (cs : List Char) (i : Nat), cs.length = 2 * n → i < n →
      ∃ c1 c2, cs[2 * i]? = some c1 ∧ cs[2 * i + 1]? = some c2 ∧
        (hex_bytes cs)[i]? = some (16 * hex_digit_value c1 + hex_digit_value c2) := by
  induction n with
  | zero => intro cs i _ hi; omega
  | succ k ih =>
    intro cs i h hi
    match cs, h with
    | c1 :: c2 :: rest, h =>
      cases i with
      | zero => exact ⟨c1, c2, by simp, by simp, by simp [hex_bytes]⟩
      | succ j =>
        obtain ⟨d1, d2, g1, g2, g3⟩ :=
          ih rest j (by simp only [List.length_cons] at h; omega) (by omega)
        refine ⟨d1, d2, ?_, ?_, ?_⟩
        · have : 2 * (j + 1) = 2 * j + 1 + 1 := by omega
          rw [this, List.getElem?_cons_succ, List.getElem?_cons_succ]
          exact g1
        · have : 2 * (j + 1) + 1 = 2 * j + 1 + 1 + 1 := by omega
          rw [this, List.getElem?_cons_succ, List.getElem?_cons_succ]
          exact g2
        · simp only [hex_bytes, List.getElem?_cons_succ]
          exact g3

/-- C19: parsing the textual form of a host id with `host_id_from_string`
succeeds and yields the host id; and the textual form of the host id parsed
from a string of 40 hexadecimal digits is that string with its letters in
lower case. -/
theorem host_id_string_roundtrip (h out : host_id_type) :
    host_id_from_string (to_string_host_id h) out = (none, h.data) ∧
      ∀ s : String, s.length = 40 → (∀ c ∈ s.data, is_hex_char c) →
        ∃ parsed : host_id_type,
          host_id_from_string s out = (none, parsed.data) ∧
          to_string_host_id parsed = String.mk (s.data.map Char.toLower) := by
  have hout : out.data.length = 20 := out.size_eq
  constructor
  · have hspec := to_string_host_id_loop_spec h.data h.byte_lt
    obtain ⟨hb, hhex⟩ := hex_bytes_of_pairs h.data h.byte_lt
    have hlen : (to_string_host_id_loop h.data).length = 2 * 20 := by
      rw [hspec, hex_pairs_length, h.size_eq]; rfl
    unfold host_id_from_string to_string_host_id
    have hl : (String.mk (to_string_host_id_loop h.data)).length = out.data.length * 2 := by
      show (to_string_host_id_loop h.data).length = _
      rw [hlen, hout]
    rw [if_neg (by simpa using hl), hout]
    rw [host_id_from_string_loop_ok 20 _ 0 out.data hlen (by rw [hspec]; exact hhex)]
    rw [hspec, hb, std_copy_full _ _ (by rw [h.size_eq, hout]; rfl)]
  · intro s hs hall
    have hlen : s.data.length = 2 * 20 := hs
    obtain ⟨hstr, hlt⟩ := to_string_of_hex_bytes 20 s.data hlen hall
    have hbl := hex_bytes_length 20 s.data hlen
    refine ⟨⟨hex_bytes s.data, hbl, hlt⟩, ?_, ?_⟩
    · unfold host_id_from_string
      have hl : s.length = out.data.length * 2 := by rw [hs, hout]
      rw [if_neg (by simpa using hl), hout]
      rw [host_id_from_string_loop_ok 20 _ 0 out.data hlen hall]
      rw [std_copy_full _ _ (by rw [hbl, hout])]
    · unfold to_string_host_id
      rw [hstr]

theorem host_id_string_roundtrip_witness :
    host_id_from_string (to_string_host_id node_id_example_a.host_id) host_id_zero =
        (none, node_id_example_a.host_id.data) ∧
      ∃ parsed : host_id_type,
        host_id_from_string "000102030405060708090a0B0c0D0e0FfFfe1080" host_id_zero =
          (none, parsed.data) ∧
        to_string_host_id parsed =
          String.mk ("000102030405060708090a0B0c0D0e0FfFfe1080".data.map Char.toLower) :=
  ⟨(host_id_string_roundtrip node_id_example_a.host_id host_id_zero).1,
    (host_id_string_roundtrip node_id_example_a.host_id host_id_zero).2
      "000102030405060708090a0B0c0D0e0FfFfe1080" (by decide)
      (by unfold is_hex_char; decide)⟩

/-- C20: `host_id_from_string(s, out)` throws `std::invalid_argument` if and
only if `s` does not have exactly 40 characters or has a character outside
`[0-9a-fA-F]`; otherwise byte `i` of `out` is
`16 * value(s[2i]) + value(s[2i+1])` afterwards, for all 20 bytes. -/
theorem host_id_from_string_throws_iff (s : String) (out : host_id_type) :
    ((∃ e, (host_id_from_string s out).1 = some e) ↔
        (s.length ≠ 40 ∨ ∃ c ∈ s.data, ¬ is_hex_char c)) ∧
      ((host_id_from_string s out).1 = none →
        (host_id_from_string s out).2.length = 20 ∧
        ∀ i, i < 20 → ∃ c1 c2, s.data[2 * i]? = some c1 ∧ s.data[2 * i + 1]? = some c2 ∧
          (host_id_from_string s out).2[i]? =
            some (16 * hex_digit_value c1 + hex_digit_value c2)) := by
  have hout : out.data.length = 20 := out.size_eq
  by_cases hs : s.length = 40
  · have hlen : s.data.length = 2 * 20 := hs
    have hl : s.length = out.data.length * 2 := by rw [hs, hout]
    have hdef : host_id_from_string s out = host_id_from_string_loop 20 s.data 0 out.data := by
      unfold host_id_from_string
      rw [if_neg (by simpa using hl), hout]
    by_cases hall : ∀ c ∈ s.data, is_hex_char c
    · have hok := host_id_from_string_loop_ok 20 s.data 0 out.data hlen hall
      have hbl := hex_bytes_length 20 s.data hlen
      rw [std_copy_full _ _ (by rw [hbl, hout])] at hok
      rw [hdef, hok]
      constructor
      · constructor
        · rintro ⟨e, he⟩
          cases he
        · rintro (h | ⟨c, hc, hn⟩)
          · exact absurd hs h
          · exact absurd (hall c hc) hn
      · intro _
        refine ⟨hbl, ?_⟩
        intro i hi
        exact hex_bytes_getElem? 20 s.data i hlen hi
    · have hex : ∃ c ∈ s.data, ¬ is_hex_char c := by
        by_contra hcon
        apply hall
        intro c hc
        by_contra hn
        exact hcon ⟨c, hc, hn⟩
      obtain ⟨e, he⟩ := host_id_from_string_loop_throws 20 s.data 0 out.data hlen hex
      rw [hdef]
      constructor
      · exact ⟨fun _ => Or.inr hex, fun _ => ⟨e, he⟩⟩
      · intro hnone
        rw [he] at hnone
        cases hnone
  · have hl : s.length ≠ out.data.length * 2 := by rw [hout]; exact hs
    have hdef : host_id_from_string s out =
        (some "string argument is not a node id hash", out.data) := by
      unfold host_id_from_string
      rw [if_pos hl]
    rw [hdef]
    constructor
    · exact ⟨fun _ => Or.inl hs, fun _ => ⟨_, rfl⟩⟩
    · intro hnone
      cases hnone

theorem host_id_from_string_throws_iff_witness :
    (∃ e, (host_id_from_string "000102030405060708090a0B0c0D0e0FfFfe108g"
        host_id_zero).1 = some e) ∧
      (host_id_from_string "000102030405060708090a0B0c0D0e0FfFfe1080"
        host_id_zero).2.length = 20 :=
  ⟨(host_id_from_string_throws_iff "000102030405060708090a0B0c0D0e0FfFfe108g"
      host_id_zero).1.mpr (Or.inr ⟨'g', by decide, by unfold is_hex_char; decide⟩),
    ((host_id_from_string_throws_iff "000102030405060708090a0B0c0D0e0FfFfe1080"
      host_id_zero).2 (by decide)).1⟩

/-! ## intrusive_ptr -/

/-- C16: `release()` returns the raw pointer that was held, leaves the
reference counts as they are and sets the pointer to `nullptr`, so that the
destructor that follows leaves the reference counts as they are too. -/
theorem intrusive_ptr_release {pointer counts : Type} (rc : ref_counting pointer counts)
    (self : intrusive_ptr pointer) (c : counts) :
    (self.release c).1 = self.get ∧
      (self.release c).2.2 = c ∧
      (self.release c).2.1.get = none ∧
      intrusive_ptr.destroy rc (self.release c).2.1 (self.release c).2.2 = c := by
  refine ⟨rfl, rfl, rfl, rfl⟩

theorem intrusive_ptr_release_example :
    ((intrusive_ptr.from_raw counting_example (some 5) (fun _ => 0)).2 5 = 1) ∧
      (intrusive_ptr.destroy counting_example
        (intrusive_ptr.from_raw counting_example (some 5) (fun _ => 0)).1
        (intrusive_ptr.from_raw counting_example (some 5) (fun _ => 0)).2 5 = 0) ∧
      (intrusive_ptr.destroy counting_example
        ((intrusive_ptr.from_raw counting_example (some 5) (fun _ => 0)).1.release
          (intrusive_ptr.from_raw counting_example (some 5) (fun _ => 0)).2).2.1
        ((intrusive_ptr.from_raw counting_example (some 5) (fun _ => 0)).1.release
          (intrusive_ptr.from_raw counting_example (some 5) (fun _ => 0)).2).2.2 5 = 1) := by
  refine ⟨by decide, by decide, by decide⟩

/-! ## actor_registry -/

/-- C18: `get(id)` is the reference component of `get_entry(id)`, whatever
`get_entry` returns; it is null when `get_entry(id)` is `(null, r)` for any
`r`, which is so with `r = 0` when the registry has no entry for `id` and with
`r != 0` when the actor has exited. -/
theorem actor_registry_get {abstract_actor_ptr : Type}
    (entry_of : actor_registry abstract_actor_ptr → actor_id →
      registry_entry abstract_actor_ptr)
    (self : actor_registry abstract_actor_ptr) (key : actor_id) :
    actor_registry.get entry_of self key = (entry_of self key).1 ∧
      (∀ r, entry_of self key = (none, r) → actor_registry.get entry_of self key = none) ∧
      ((∀ e ∈ self.m_entries, e.1 ≠ key) →
        self.get_entry key = (none, 0) ∧
        actor_registry.get actor_registry.get_entry self key = none) ∧
      (∀ r, (key, (none, r)) ∈ self.m_entries →
        (∀ e ∈ self.m_entries, e.1 = key → e = (key, (none, r))) →
        self.get_entry key = (none, r) ∧
        actor_registry.get actor_registry.get_entry self key = none) := by
  refine ⟨rfl, ?_, ?_, ?_⟩
  · intro r h
    unfold actor_registry.get
    rw [h]
  · intro h
    have hfind : self.m_entries.find? (fun e => decide (e.1 = key)) = none := by
      rw [List.find?_eq_none]
      intro e he
      simpa using h e he
    have hg : self.get_entry key = (none, 0) := by
      unfold actor_registry.get_entry
      rw [hfind]
    exact ⟨hg, by unfold actor_registry.get; rw [hg]⟩
  · intro r hmem huniq
    have hg : self.get_entry key = (none, r) := by
      unfold actor_registry.get_entry
      cases hf : self.m_entries.find? (fun e => decide (e.1 = key)) with
      | none =>
        rw [List.find?_eq_none] at hf
        have := hf _ hmem
        simp at this
      | some e =>
        have h1 := List.find?_some hf
        have h2 := List.mem_of_find?_eq_some hf
        have h3 := huniq e h2 (by simpa using h1)
        rw [h3]
    exact ⟨hg, by unfold actor_registry.get; rw [hg]⟩

theorem actor_registry_get_witness :
    actor_registry.get actor_registry.get_entry registry_example 3 = none ∧
      actor_registry.get actor_registry.get_entry registry_example 2 = none ∧
      actor_registry.get actor_registry.get_entry registry_example 1 = some 100 :=
  ⟨((actor_registry_get actor_registry.get_entry registry_example 3).2.2.1
      (by decide)).2,
    (actor_registry_get actor_registry.get_entry registry_example 2).2.1 7 rfl,
    by rfl⟩

/-! ## mailman: add-peer jobs -/

theorem peers_find_append_self {process_information : Type} [DecidableEq process_information]
    (peers : List (process_information × native_socket_t)) (key : process_information)
    (sockfd : native_socket_t) (h : peers_find peers key = none) :
    peers_find (peers ++ [(key, sockfd)]) key = some sockfd := by
  unfold peers_find at h ⊢
  cases hf : peers.find? (fun p => decide (p.1 = key)) with
  | some p => rw [hf] at h; cases h
  | none => simp [List.find?_append, hf]

/-- C17: in `mailman_loop`, an add-peer job for a peer that has a socket in
the peers map leaves the map, and all else, unchanged; an add-peer job for a
peer without entry adds the pair of that peer and the socket of the job to the
map, and nothing else. -/
theorem mailman_add_peer_spec {process_information message : Type}
    [DecidableEq process_information]
    (le : Bool) (serialize : message → Option (List Nat))
    (st : mailman_state process_information)
    (sockfd : native_socket_t) (pinfo : process_information) (sent1 sent2 : Int) :
    mailman_loop le serialize st [(mailman_job.add_peer sockfd pinfo, sent1, sent2)] =
        mailman_add st sockfd pinfo ∧
      (∀ first, peers_find st.peers pinfo = some first →
        mailman_add st sockfd pinfo = st) ∧
      (peers_find st.peers pinfo = none →
        mailman_add st sockfd pinfo = { st with peers := st.peers ++ [(pinfo, sockfd)] } ∧
        peers_find (mailman_add st sockfd pinfo).peers pinfo = some sockfd) := by
  refine ⟨rfl, ?_, ?_⟩
  · intro first h
    unfold mailman_add
    rw [h]
  · intro h
    have hadd : mailman_add st sockfd pinfo =
        { st with peers := st.peers ++ [(pinfo, sockfd)] } := by
      unfold mailman_add
      rw [h]
    exact ⟨hadd, by rw [hadd]; exact peers_find_append_self st.peers pinfo sockfd h⟩

theorem mailman_add_peer_spec_witness :
    (mailman_add (mailman_add (mailman_init Nat) 4 7) 5 7).peers = [(7, 4)] ∧
      (mailman_add (mailman_init Nat) 4 7).peers = [(7, 4)] :=
  ⟨by
      rw [((@mailman_add_peer_spec Nat (List Nat) _ true some
        (mailman_add (mailman_init Nat) 4 7) 5 7 0 0).2.1 4 (by decide))]
      decide,
    by
      rw [((@mailman_add_peer_spec Nat (List Nat) _ true some
        (mailman_init Nat) 4 7 0 0).2.2 (by decide)).1]
      decide⟩

/-! ## middleman_event_handler: masks, recording, sortedness, disposal -/

theorem testBit_of_lt_two_pow_32 (x i : Nat) (hx : x < 2 ^ 32) (hi : 32 ≤ i) :
    x.testBit i = false := by
  apply Nat.testBit_lt_two_pow
  calc x < 2 ^ 32 := hx
    _ ≤ 2 ^ i := Nat.pow_le_pow_right (by norm_num) hi

theorem bit_not_testBit (x i : Nat) :
    (bit_not x).testBit i = (decide (i < 32) ^^ x.testBit i) := by
  unfold bit_not
  rw [Nat.testBit_xor, Nat.testBit_two_pow_sub_one]

/-- C21: `next_bitmask(old, arg, add)` is `old | arg` and
`next_bitmask(old, arg, erase)` is `old & ~arg`, for all masks; adding the
same `arg` twice equals adding it once, and erasing `arg` after adding it to a
mask that has no bit in common with `arg` returns that mask. Masks are bit
patterns of 32 bits. -/
theorem next_bitmask_spec (old arg : event_bitmask) :
    next_bitmask old arg fd_meta_event.add = old ||| arg ∧
      next_bitmask old arg fd_meta_event.erase = old &&& bit_not arg ∧
      next_bitmask (next_bitmask old arg fd_meta_event.add) arg fd_meta_event.add =
        next_bitmask old arg fd_meta_event.add ∧
      (old < 2 ^ 32 → arg < 2 ^ 32 → old &&& arg = 0 →
        next_bitmask (next_bitmask old arg fd_meta_event.add) arg fd_meta_event.erase =
          old) := by
  refine ⟨rfl, rfl, ?_, ?_⟩
  · show (old ||| arg) ||| arg = old ||| arg
    apply Nat.eq_of_testBit_eq
    intro i
    simp only [Nat.testBit_or]
    cases old.testBit i <;> cases arg.testBit i <;> rfl
  · intro ho ha hd
    show (old ||| arg) &&& bit_not arg = old
    apply Nat.eq_of_testBit_eq
    intro i
    have hdis : (old.testBit i && arg.testBit i) = false := by
      rw [← Nat.testBit_and, hd, Nat.zero_testBit]
    rw [Nat.testBit_and, Nat.testBit_or, bit_not_testBit]
    by_cases hi : i < 32
    · simp only [hi, decide_True]
      revert hdis
      cases old.testBit i <;> cases arg.testBit i <;> simp
    · have h1 := testBit_of_lt_two_pow_32 old i ho (by omega)
      have h2 := testBit_of_lt_two_pow_32 arg i ha (by omega)
      simp [hi, h1, h2]

theorem next_bitmask_spec_witness :
    next_bitmask (next_bitmask event.read event.write fd_meta_event.add) event.write
        fd_meta_event.erase = event.read ∧
      next_bitmask event.read event.write fd_meta_event.add = event.both :=
  ⟨(next_bitmask_spec event.read event.write).2.2.2 (by decide) (by decide) (by decide),
    by decide⟩

/-- C22: `alteration(ptr, event::both, op)` records the one alteration
`(fd, ptr, both, op)` when the read handle of `ptr` is its write handle, and
two alterations when they differ, first `(write_handle, ptr, write, op)` and
then `(read_handle, ptr, read, op)`; with `event::read` or `event::write` it
records one alteration on the read or on the write handle; with any other
bitmask it records nothing. -/
theorem alteration_records (l : List (fd_meta_info × fd_meta_event)) (ptr : continuable)
    (e : event_bitmask) (op : fd_meta_event) :
    (ptr.read_handle = ptr.write_handle →
        alteration l ptr event.both op = l ++ [(⟨ptr.read_handle, ptr, event.both⟩, op)]) ∧
      (ptr.read_handle ≠ ptr.write_handle →
        alteration l ptr event.both op =
          l ++ [(⟨ptr.write_handle, ptr, event.write⟩, op),
            (⟨ptr.read_handle, ptr, event.read⟩, op)]) ∧
      alteration l ptr event.read op = l ++ [(⟨ptr.read_handle, ptr, event.read⟩, op)] ∧
      alteration l ptr event.write op = l ++ [(⟨ptr.write_handle, ptr, event.write⟩, op)] ∧
      (e ≠ event.read → e ≠ event.write → e ≠ event.both → alteration l ptr e op = l) := by
  refine ⟨?_, ?_, rfl, rfl, ?_⟩
  · intro h
    simp [alteration, event.both, event.read, event.write, h]
  · intro h
    simp [alteration, event.both, event.read, event.write, h]
  · intro h1 h2 h3
    simp [alteration, h1, h2, h3]

theorem alteration_records_witness :
    alteration [] continuable_p event.both fd_meta_event.add =
        [] ++ [(⟨continuable_p.read_handle, continuable_p, event.both⟩, fd_meta_event.add)] ∧
      alteration [] continuable_rw event.both fd_meta_event.erase =
        [] ++ [(⟨continuable_rw.write_handle, continuable_rw, event.write⟩, fd_meta_event.erase),
          (⟨continuable_rw.read_handle, continuable_rw, event.read⟩, fd_meta_event.erase)] ∧
      alteration [] continuable_p event.none fd_meta_event.add = [] :=
  ⟨(alteration_records [] continuable_p event.both fd_meta_event.add).1 (by decide),
    (alteration_records [] continuable_rw event.both fd_meta_event.erase).2.1 (by decide),
    (alteration_records [] continuable_p event.none fd_meta_event.add).2.2.2.2
      (by decide) (by decide) (by decide)⟩

/-- C24: when the meta-set is sorted by strictly increasing descriptor before
`update()`, it is so after every alteration that the first loop of `update()`
folds and after `update()`, for every sequence of pending alterations; on the
meta-set after `update()`, the search of `not_in_meta` finds a descriptor
exactly when the meta-set has an entry for it. -/
theorem update_keeps_sorted (self : middleman_event_handler)
    (hs : meta_sorted self.m_meta) :
    meta_sorted (update self).m_meta ∧
      (∀ k, meta_sorted ((self.m_alterations.take k).foldl update_step self).m_meta) ∧
      (∀ fd, not_in_meta (update self).m_meta fd = true ↔
        ∀ e ∈ (update self).m_meta, e.fd ≠ fd) := by
  have hfinal : meta_sorted (update self).m_meta :=
    foldl_update_step_sorted self.m_alterations self hs
  refine ⟨hfinal, ?_, ?_⟩
  · intro k
    exact foldl_update_step_sorted _ self hs
  · intro fd
    exact not_in_meta_iff _ fd hfinal

theorem update_keeps_sorted_witness :
    meta_sorted (update handler_erase_absent).m_meta ∧
      (update handler_erase_absent).m_meta =
        [⟨3, continuable_q, event.write⟩, ⟨5, continuable_p, event.read⟩] :=
  ⟨(update_keeps_sorted handler_erase_absent (by unfold meta_sorted; decide)).1, by decide⟩

/-- C25, at the failing inputs: a batch that erases the entry of the read
handle and the entry of the write handle of a continuable with distinct
handles schedules the continuable twice, and `update()` invokes `dispose()` on
it twice; so does a batch that removes, adds again and removes the entry of
one descriptor. -/
theorem update_disposes_twice :
    meta_sorted handler_erase_both.m_meta ∧
      handler_erase_both.m_alterations =
        [(⟨4, continuable_rw, event.write⟩, fd_meta_event.erase),
          (⟨3, continuable_rw, event.read⟩, fd_meta_event.erase)] ∧
      (update_fold handler_erase_both).m_dispose_list = [continuable_rw, continuable_rw] ∧
      (update handler_erase_both).m_meta = [] ∧
      (update handler_erase_both).disposed = [continuable_rw, continuable_rw] ∧
      (update handler_remove_add_remove).m_meta = [] ∧
      (update handler_remove_add_remove).disposed = [continuable_p, continuable_p] := by
  refine ⟨by unfold meta_sorted; decide, by decide, by decide, by decide, by decide,
    by decide, by decide⟩

/-! ## mailman: send jobs and the peers map -/

theorem mailman_send_known {process_information message : Type}
    [DecidableEq process_information]
    (le : Bool) (serialize : message → Option (List Nat))
    (st : mailman_state process_information)
    (target_peer : process_information) (out_msg : message) (bytes : List Nat)
    (peer : native_socket_t) (sent1 sent2 : Int)
    (hbs : st.bs = []) (hpeer : peers_find st.peers target_peer = some peer)
    (hser : serialize out_msg = some bytes) :
    (mailman_send le serialize st target_peer out_msg sent1 sent2).peers =
        (if (decide ((if sent1 > 0 then sent2 else sent1) ≤ 0) ||
            decide ((if sent1 > 0 then sent2 else sent1) ≠ ((bytes.length % 2 ^ 32 : Nat) : Int)))
          then peers_erase st.peers target_peer else st.peers) ∧
      (mailman_send le serialize st target_peer out_msg sent1 sent2).closed =
        (if (decide ((if sent1 > 0 then sent2 else sent1) ≤ 0) ||
            decide ((if sent1 > 0 then sent2 else sent1) ≠ ((bytes.length % 2 ^ 32 : Nat) : Int)))
          then st.closed ++ [peer] else st.closed) := by
  unfold mailman_send
  rw [hpeer]
  simp [hser, hbs]

theorem peers_find_erase {process_information : Type} [DecidableEq process_information]
    (peers : List (process_information × native_socket_t)) (key : process_information) :
    peers_find (peers_erase peers key) key = none := by
  unfold peers_find peers_erase
  have h : (peers.filter (fun p => !decide (p.1 = key))).find? (fun p => decide (p.1 = key)) =
      none := by
    rw [List.find?_eq_none]
    intro p hp
    have := (List.mem_filter.mp hp).2
    simpa using this
  rw [h]

theorem mailman_send_known_written {process_information message : Type}
    [DecidableEq process_information]
    (le : Bool) (serialize : message → Option (List Nat))
    (st : mailman_state process_information)
    (target_peer : process_information) (out_msg : message) (bytes : List Nat)
    (peer : native_socket_t) (sent1 sent2 : Int)
    (hbs : st.bs = []) (hpeer : peers_find st.peers target_peer = some peer)
    (hser : serialize out_msg = some bytes) :
    (mailman_send le serialize st target_peer out_msg sent1 sent2).written =
      st.written ++ socket_send peer (uint32_bytes le (bytes.length % 2 ^ 32)) sent1 ++
        (if sent1 > 0 then socket_send peer bytes sent2 else []) := by
  unfold mailman_send
  rw [hpeer]
  simp [hser, hbs]

theorem socket_send_one (peer : native_socket_t) (b : Nat) (n : Nat) :
    socket_send peer (List.replicate (n + 1) b) 1 = [(peer, b)] := by
  unfold socket_send
  simp [List.replicate_succ]

/-- C23, at the failing input: a send job to the known peer 7 whose message
serializes to `2 ^ 32 + 1` bytes and whose payload write is short (the first
`::send` returns 4, the second returns 1, so one byte of the message is on
the socket) leaves the peer in the peers map and closes no socket: the result
of the write is compared with the size as a 32-bit integer, which is 1. The
same short write of a message of two bytes removes the peer and closes its
socket. -/
theorem mailman_short_write_keeps_peer :
    (mailman_add (mailman_init Nat) 4 7).peers = [(7, 4)] ∧
      (List.replicate (2 ^ 32 + 1) 0).length = 2 ^ 32 + 1 ∧
      (mailman_send true (fun _ : Nat => some (List.replicate (2 ^ 32 + 1) 0))
        (mailman_add (mailman_init Nat) 4 7) 7 0 4 1).peers = [(7, 4)] ∧
      (mailman_send true (fun _ : Nat => some (List.replicate (2 ^ 32 + 1) 0))
        (mailman_add (mailman_init Nat) 4 7) 7 0 4 1).closed = [] ∧
      (mailman_send true (fun _ : Nat => some (List.replicate (2 ^ 32 + 1) 0))
        (mailman_add (mailman_init Nat) 4 7) 7 0 4 1).written =
          [(4, 1), (4, 0), (4, 0), (4, 0), (4, 0)] ∧
      (mailman_send true (fun _ : Nat => some [0, 0])
        (mailman_add (mailman_init Nat) 4 7) 7 0 4 1).peers = [] ∧
      (mailman_send true (fun _ : Nat => some [0, 0])
        (mailman_add (mailman_init Nat) 4 7) 7 0 4 1).closed = [4] ∧
      (mailman_send true (fun _ : Nat => some [0, 0])
        (mailman_add (mailman_init Nat) 4 7) 7 0 4 1).written =
          [(4, 2), (4, 0), (4, 0), (4, 0), (4, 0)] := by
  have h := mailman_send_known true (fun _ : Nat => some (List.replicate (2 ^ 32 + 1) 0))
    (mailman_add (mailman_init Nat) 4 7) 7 0 (List.replicate (2 ^ 32 + 1) 0) 4 4 1
    rfl (by decide) rfl
  have hw := mailman_send_known_written true
    (fun _ : Nat => some (List.replicate (2 ^ 32 + 1) 0))
    (mailman_add (mailman_init Nat) 4 7) 7 0 (List.replicate (2 ^ 32 + 1) 0) 4 4 1
    rfl (by decide) rfl
  refine ⟨by decide, List.length_replicate _ _, ?_, ?_, ?_, by decide, by decide, by decide⟩
  · rw [h.1]
    simp only [List.length_replicate, Nat.add_mod_left]
    decide
  · rw [h.2]
    simp only [List.length_replicate, Nat.add_mod_left]
    decide
  · rw [hw, socket_send_one]
    simp only [List.length_replicate, Nat.add_mod_left]
    decide

/-- The send job branch of `mailman_loop` on every input: a send job to a
known peer removes that peer from the peers map and closes its socket when a
`::send` call returns a value `<= 0`, when the result of the payload write
differs from `size32`, the serialized size modulo `2 ^ 32`, or when
serialization throws; when both results are positive and the second equals
`size32`, so when both writes succeed in full for a message of at least one
and less than `2 ^ 32` bytes, the peers map is unchanged and no socket is
closed; a send job to an unknown peer changes nothing. The buffer of the serializer is empty
after every job. -/
theorem mailman_send_job_disconnects {process_information message : Type}
    [DecidableEq process_information]
    (le : Bool) (serialize : message → Option (List Nat))
    (st : mailman_state process_information)
    (target_peer : process_information) (out_msg : message) (sent1 sent2 : Int)
    (hbs : st.bs = []) :
    (peers_find st.peers target_peer = none →
        mailman_send le serialize st target_peer out_msg sent1 sent2 = st) ∧
      (∀ peer, peers_find st.peers target_peer = some peer →
        (serialize out_msg = none →
          (mailman_send le serialize st target_peer out_msg sent1 sent2).peers =
            peers_erase st.peers target_peer ∧
          (mailman_send le serialize st target_peer out_msg sent1 sent2).closed =
            st.closed ++ [peer] ∧
          (mailman_send le serialize st target_peer out_msg sent1 sent2).written =
            st.written) ∧
        (∀ bytes, serialize out_msg = some bytes →
          ((sent1 ≤ 0 ∨ sent2 ≤ 0 ∨ sent2 ≠ ((bytes.length % 2 ^ 32 : Nat) : Int)) →
            (mailman_send le serialize st target_peer out_msg sent1 sent2).peers =
              peers_erase st.peers target_peer ∧
            (mailman_send le serialize st target_peer out_msg sent1 sent2).closed =
              st.closed ++ [peer]) ∧
          (0 < sent1 → 0 < sent2 → sent2 = ((bytes.length % 2 ^ 32 : Nat) : Int) →
            (mailman_send le serialize st target_peer out_msg sent1 sent2).peers = st.peers ∧
            (mailman_send le serialize st target_peer out_msg sent1 sent2).closed =
              st.closed) ∧
          (sent1 = 4 → sent2 = (bytes.length : Int) → 0 < bytes.length →
            bytes.length < 2 ^ 32 →
            (mailman_send le serialize st target_peer out_msg sent1 sent2).peers = st.peers ∧
            (mailman_send le serialize st target_peer out_msg sent1 sent2).closed =
              st.closed))) ∧
      peers_find (peers_erase st.peers target_peer) target_peer = none ∧
      (mailman_send le serialize st target_peer out_msg sent1 sent2).bs = [] ∧
      (∀ jobs : List (mailman_job process_information message × Int × Int),
        (mailman_loop le serialize (mailman_init process_information) jobs).bs = []) := by
  refine ⟨?_, ?_, peers_find_erase _ _, mailman_send_bs le serialize st hbs _ _ _ _, ?_⟩
  · intro h
    unfold mailman_send
    rw [h]
  · intro peer hpeer
    constructor
    · intro hser
      unfold mailman_send
      rw [hpeer]
      simp [hser]
    · intro bytes hser
      obtain ⟨hp, hc⟩ := mailman_send_known le serialize st target_peer out_msg bytes peer
        sent1 sent2 hbs hpeer hser
      have hkeep : 0 < sent1 → 0 < sent2 → sent2 = ((bytes.length % 2 ^ 32 : Nat) : Int) →
          (mailman_send le serialize st target_peer out_msg sent1 sent2).peers = st.peers ∧
          (mailman_send le serialize st target_peer out_msg sent1 sent2).closed =
            st.closed := by
        intro h1 h2 h3
        have hcond : (decide ((if sent1 > 0 then sent2 else sent1) ≤ 0) ||
            decide ((if sent1 > 0 then sent2 else sent1) ≠
              ((bytes.length % 2 ^ 32 : Nat) : Int))) = false := by
          rw [if_pos h1]
          simp only [Bool.or_eq_false_iff, decide_eq_false_iff_not, not_le, ne_eq, not_not]
          exact ⟨h2, h3⟩
        rw [hp, hc, hcond]
        exact ⟨rfl, rfl⟩
      refine ⟨?_, hkeep, ?_⟩
      · intro h
        have hcond : (decide ((if sent1 > 0 then sent2 else sent1) ≤ 0) ||
            decide ((if sent1 > 0 then sent2 else sent1) ≠
              ((bytes.length % 2 ^ 32 : Nat) : Int))) = true := by
          by_cases h1 : sent1 > 0
          · rw [if_pos h1]
            simp only [Bool.or_eq_true, decide_eq_true_eq]
            rcases h with h | h | h
            · omega
            · exact Or.inl h
            · exact Or.inr h
          · rw [if_neg h1]
            simp only [Bool.or_eq_true, decide_eq_true_eq]
            exact Or.inl (by omega)
        rw [hp, hc, hcond]
        exact ⟨rfl, rfl⟩
      · intro h1 h2 h3 h4
        have hmod : bytes.length % 2 ^ 32 = bytes.length := Nat.mod_eq_of_lt h4
        apply hkeep
        · rw [h1]; decide
        · rw [h2]; exact_mod_cast h3
        · rw [h2, hmod]
  · intro jobs
    exact mailman_loop_bs le serialize jobs _ rfl

theorem mailman_send_job_disconnects_witness :
    (mailman_send true some (mailman_add (mailman_init Nat) 4 7) 7 [9] (-1) 0).peers = [] ∧
      (mailman_send true some (mailman_add (mailman_init Nat) 4 7) 7 [9] (-1) 0).closed = [4] ∧
      (mailman_send true some (mailman_add (mailman_init Nat) 4 7) 7 [9] 4 1).peers =
        [(7, 4)] ∧
      mailman_send true some (mailman_add (mailman_init Nat) 4 7) 8 [9] 4 1 =
        mailman_add (mailman_init Nat) 4 7 :=
  ⟨by
      rw [(((@mailman_send_job_disconnects Nat (List Nat) _ true some
        (mailman_add (mailman_init Nat) 4 7) 7 [9] (-1) 0 rfl).2.1 4 (by decide)).2 [9]
        rfl).1 (Or.inl (by decide)) |>.1]
      decide,
    by
      rw [(((@mailman_send_job_disconnects Nat (List Nat) _ true some
        (mailman_add (mailman_init Nat) 4 7) 7 [9] (-1) 0 rfl).2.1 4 (by decide)).2 [9]
        rfl).1 (Or.inl (by decide)) |>.2]
      decide,
    by
      rw [(((@mailman_send_job_disconnects Nat (List Nat) _ true some
        (mailman_add (mailman_init Nat) 4 7) 7 [9] 4 1 rfl).2.1 4 (by decide)).2 [9]
        rfl).2.2 rfl rfl (by decide) (by decide) |>.1]
      decide,
    (@mailman_send_job_disconnects Nat (List Nat) _ true some
      (mailman_add (mailman_init Nat) 4 7) 8 [9] 4 1 rfl).1 (by decide)⟩

end cppa
